import Mathlib

/-!
Verification of the odin-calculator equation state machine (`src/main.js`).

The calculator keeps five module-level state variables (`currentEquation`,
`firstNumber`, `secondNumber`, `currentOperator`, `shouldResetDisplay`) and
mutates them through the input handlers `handleNumber`, `handleOperator`,
`handleEquals`, `handleDecimal`, `clearCalculator`, `handleAllClear` and
`handleBackspace`.  We embed the buffer as a `List Char` and JavaScript
numbers as exact rationals extended with a NaN element (`JSNum`).  This
idealises IEEE-754 doubles by exact rational arithmetic; every concrete
scenario exercised below stays within small integers, where the two agree,
and the number-to-string conversion is exact on all terminating decimal
expansions.  `parseFloat` is modelled on the inputs the machine can produce
(optional sign, digits, one fractional part; no exponent or `Infinity`
forms, which never occur in the idealised buffers), returning NaN on any
string without a numeric prefix, exactly as `parseFloat("Error")` and
`parseFloat("")` do in JavaScript.
-/

namespace OdinCalc

/-- A JavaScript number: NaN or an (idealised, exact) finite value. -/
inductive JSNum where
  | nan : JSNum
  | num : ℚ → JSNum
deriving DecidableEq

/-- Result of `operate`: a number, or the string `"Error"` returned by
`divide` on a zero divisor. -/
inductive JSVal where
  | val : JSNum → JSVal
  | err : JSVal
deriving DecidableEq

/-- The four operator buttons `+`, `-`, `×`, `÷`. -/
inductive Op where
  | add : Op
  | sub : Op
  | mul : Op
  | div : Op
deriving DecidableEq

/-- The character appended to the equation for each operator button. -/
def opChar : Op → Char
  | .add => '+'
  | .sub => '-'
  | .mul => '×'
  | .div => '÷'

/-- `function add(a, b) { return a + b; }` with JS NaN propagation. -/
def add : JSNum → JSNum → JSNum
  | .num a, .num b => .num (a + b)
  | _, _ => .nan

/-- `function subtract(a, b) { return a - b; }` with JS NaN propagation. -/
def subtract : JSNum → JSNum → JSNum
  | .num a, .num b => .num (a - b)
  | _, _ => .nan

/-- `function multiply(a, b) { return a * b; }` with JS NaN propagation. -/
def multiply : JSNum → JSNum → JSNum
  | .num a, .num b => .num (a * b)
  | _, _ => .nan

/-- The quotient `a / b`, reached in `divide` only after the `b === 0`
guard failed, so the `b = 0` case of rational division is dead code. -/
def divRaw : JSNum → JSNum → JSNum
  | .num a, .num b => .num (a / b)
  | _, _ => .nan

/-- `divide(a, b)`: returns the string `"Error"` when `b === 0`, else
`a / b`.  JS `===` on numbers: `NaN === 0` is false, so only the exact
zero value takes the error branch. -/
def divide (a b : JSNum) : JSVal :=
  if b = JSNum.num 0 then JSVal.err else JSVal.val (divRaw a b)

/-- `operate(operator, a, b)`: the lookup table `{+: add, -: subtract,
×: multiply, ÷: divide}` applied to `a` and `b`. -/
def operate : Op → JSNum → JSNum → JSVal
  | .add, a, b => JSVal.val (add a b)
  | .sub, a, b => JSVal.val (subtract a b)
  | .mul, a, b => JSVal.val (multiply a b)
  | .div, a, b => divide a b

/-- Operator characters, the class `[\+\-\×\÷]` used by the source's
`split`/`match` regular expressions. -/
def isOpChar (c : Char) : Bool :=
  c = '+' || c = '-' || c = '×' || c = '÷'

/-- The class `[\+\-\×\÷=]` used by `handleDecimal`'s split. -/
def isOpEqChar (c : Char) : Bool :=
  isOpChar c || c = '='

/-- `String.prototype.split` on a single-character class: JS returns the
(possibly empty) pieces between separator occurrences, so the result is
always nonempty and `"".split` gives `[""]`. -/
def splitP (p : Char → Bool) : List Char → List (List Char)
  | [] => [[]]
  | c :: r =>
    if p c then [] :: splitP p r
    else
      match splitP p r with
      | s :: rest => (c :: s) :: rest
      | [] => [[c]]

/-- The digit character for `n` (`0`–`9`). -/
def digitChar (n : Nat) : Char := Char.ofNat (48 + n)

/-- Numeric value of a run of digit characters. -/
def digitsToNat (l : List Char) : Nat :=
  l.foldl (fun acc c => 10 * acc + (c.toNat - 48)) 0

/-- `parseFloat`: optional sign, integer digits, optional `.` and
fraction digits; if no digit was consumed the result is NaN.  This is the
JS behaviour on every string the machine can hand it (`"Error"`, `"NaN"`
and `""` all parse to NaN; `"0."` parses to `0`; parsing stops at the
first character that cannot extend the literal). -/
def parseFloatJS (l : List Char) : JSNum :=
  let (neg, r) :=
    match l with
    | '-' :: r => (true, r)
    | '+' :: r => (false, r)
    | r => (false, r)
  let ip := r.takeWhile Char.isDigit
  let r2 := r.dropWhile Char.isDigit
  let fp :=
    match r2 with
    | '.' :: r3 => r3.takeWhile Char.isDigit
    | _ => []
  if ip = [] ∧ fp = [] then JSNum.nan
  else
    let mag : ℚ := (digitsToNat ip : ℚ) + (digitsToNat fp : ℚ) / ((10 : ℚ) ^ fp.length)
    JSNum.num (if neg then -mag else mag)

/-- Decimal digit characters of `n`, most significant first (fuel-driven
so that the kernel can evaluate it). -/
def natToCharsAux : Nat → Nat → List Char
  | 0, _ => []
  | fuel + 1, n =>
    if n < 10 then [digitChar n]
    else natToCharsAux fuel (n / 10) ++ [digitChar (n % 10)]

/-- Decimal representation of a natural number. -/
def natToChars (n : Nat) : List Char := natToCharsAux (n + 1) n

/-- Fraction digits of `r / d` (`0 < r < d`), stopping when the remainder
vanishes, as JS `Number.prototype.toString` does for terminating decimal
expansions.  The fuel bounds non-terminating expansions, which no
concrete scenario in this development produces. -/
def fracChars : Nat → Nat → Nat → List Char
  | 0, _, _ => []
  | fuel + 1, r, d =>
    if r = 0 then []
    else digitChar (r * 10 / d) :: fracChars fuel (r * 10 % d) d

/-- `Number.prototype.toString` for a finite value: sign, integer part,
and the (terminating) fraction digits; trailing zeros never occur
because the expansion stops at remainder zero. -/
def ratToChars (q : ℚ) : List Char :=
  (if q < 0 then ['-'] else []) ++
    natToChars (q.num.natAbs / q.den) ++
    (if q.num.natAbs % q.den = 0 then []
     else '.' :: fracChars 64 (q.num.natAbs % q.den) q.den)

/-- String conversion of a JS number (`String(NaN) = "NaN"`). -/
def jsNumToChars : JSNum → List Char
  | .nan => ['N', 'a', 'N']
  | .num q => ratToChars q

/-- String conversion of an `operate` result: the number's string, or the
literal `"Error"`. -/
def jsValToChars : JSVal → List Char
  | .val v => jsNumToChars v
  | .err => ['E', 'r', 'r', 'o', 'r']

/-- `parseFloat(x)` applied to a raw `operate` result coerces the result
to a string first (`parseFloat("Error") = NaN`). -/
def parseFloatVal (r : JSVal) : JSNum := parseFloatJS (jsValToChars r)

/-- The five module-level state variables of the calculator. -/
structure CalcState where
  currentEquation : List Char
  firstNumber : Option JSNum
  secondNumber : Option JSNum
  currentOperator : Option Op
  shouldResetDisplay : Bool
deriving DecidableEq

/-- The state at initialisation: empty equation, null operands, null
operator, reset flag false. -/
def initState : CalcState := ⟨[], none, none, none, false⟩

/-- Last element of the JS `split` result (`parts[parts.length - 1]`). -/
def lastPart (p : Char → Bool) (l : List Char) : List Char :=
  (splitP p l).getLastD []

/-- `str.split("=")[1]`, used only after `includes("=")` succeeded. -/
def eqTail (l : List Char) : List Char :=
  (splitP (fun c => c = '=') l).getD 1 []

/-- `str.lastIndexOf(c)` for a character known to occur in `l`. -/
def lastIdxOf (c : Char) (l : List Char) : Nat :=
  l.length - 1 - l.reverse.indexOf c

/-- `handleNumber(num)` for a digit button `num`. -/
def handleNumber (d : Char) (s : CalcState) : CalcState :=
  if s.shouldResetDisplay then
    if s.currentEquation.contains '=' then
      { s with currentEquation := [d], shouldResetDisplay := false }
    else
      { s with currentEquation := s.currentEquation ++ [d], shouldResetDisplay := false }
  else
    if s.currentEquation = ['0'] ∨ s.currentEquation.contains '=' then
      { s with currentEquation := [d] }
    else
      { s with currentEquation := s.currentEquation ++ [d] }

/-- `handleOperator(op)`.  First the active operand is read (the segment
after the last operator, or the parsed result after an equals marker, in
which case `currentEquation` is rewritten to that number's string); then
one of the three cases fires; finally `currentOperator := op` and
`shouldResetDisplay := true`. -/
def handleOperator (op : Op) (s : CalcState) : CalcState :=
  let cn_eq :=
    if s.currentEquation.contains '=' then
      let n := parseFloatJS (eqTail s.currentEquation)
      (n, jsNumToChars n)
    else
      (parseFloatJS (lastPart isOpChar s.currentEquation), s.currentEquation)
  let currentNumber := cn_eq.1
  let eq1 := cn_eq.2
  if s.firstNumber = none then
    { currentEquation := eq1 ++ [opChar op]
      firstNumber := some currentNumber
      secondNumber := s.secondNumber
      currentOperator := some op
      shouldResetDisplay := true }
  else if s.currentOperator.isSome ∧ ¬s.shouldResetDisplay then
    let result := operate (s.currentOperator.getD Op.add) (s.firstNumber.getD JSNum.nan) currentNumber
    { currentEquation := jsValToChars result ++ [opChar op]
      firstNumber := some (parseFloatVal result)
      secondNumber := some currentNumber
      currentOperator := some op
      shouldResetDisplay := true }
  else
    { currentEquation := eq1.dropLast ++ [opChar op]
      firstNumber := s.firstNumber
      secondNumber := s.secondNumber
      currentOperator := some op
      shouldResetDisplay := true }

/-- `handleEquals()`: guarded by `firstNumber !== null && currentOperator
&& !shouldResetDisplay` (note `NaN !== null` is true in JS, so a NaN
first operand passes the guard); otherwise nothing is mutated. -/
def handleEquals (s : CalcState) : CalcState :=
  if s.firstNumber.isSome ∧ s.currentOperator.isSome ∧ ¬s.shouldResetDisplay then
    let second := parseFloatJS (lastPart isOpChar s.currentEquation)
    let result := operate (s.currentOperator.getD Op.add) (s.firstNumber.getD JSNum.nan) second
    { currentEquation := s.currentEquation ++ '=' :: jsValToChars result
      firstNumber := none
      secondNumber := none
      currentOperator := none
      shouldResetDisplay := true }
  else s

/-- `handleDecimal()`. -/
def handleDecimal (s : CalcState) : CalcState :=
  let currentNumber := lastPart isOpEqChar s.currentEquation
  if s.shouldResetDisplay then
    if s.currentEquation.contains '=' then
      { s with currentEquation := ['0', '.'], shouldResetDisplay := false }
    else
      { s with currentEquation := s.currentEquation ++ ['0', '.'], shouldResetDisplay := false }
  else if ¬currentNumber.contains '.' then
    if s.currentEquation = ['0'] ∨ s.currentEquation.contains '=' then
      { s with currentEquation := ['0', '.'] }
    else
      { s with currentEquation := s.currentEquation ++ ['.'] }
  else s

/-- `clearCalculator()` (the `C` button). -/
def clearCalculator (s : CalcState) : CalcState :=
  if s.shouldResetDisplay ∨ s.currentEquation.contains '=' then initState
  else if (splitP isOpChar s.currentEquation).length > 1 then
    match s.currentEquation.find? isOpChar with
    | some c =>
      { s with
        currentEquation := s.currentEquation.take (lastIdxOf c s.currentEquation + 1)
        shouldResetDisplay := true }
    | none => s
  else
    { s with currentEquation := [] }

/-- `handleAllClear()` (the `AC` button). -/
def handleAllClear (_ : CalcState) : CalcState := initState

/-- `handleBackspace()` (the `←` button). -/
def handleBackspace (s : CalcState) : CalcState :=
  if s.currentEquation.contains '=' then
    { s with currentEquation := eqTail s.currentEquation }
  else if s.currentEquation.length > 1 then
    { s with currentEquation := s.currentEquation.dropLast }
  else
    { s with currentEquation := ['0'] }

/-- The buffer transformation performed by one backspace press. -/
def backspaceEq (l : List Char) : List Char :=
  if l.contains '=' then eqTail l
  else if l.length > 1 then l.dropLast
  else ['0']

/-- The display string: `currentEquation || value` with `value = "0"`. -/
def displayOf (s : CalcState) : List Char :=
  if s.currentEquation = [] then ['0'] else s.currentEquation

/-- The input events routed by `routeCalculatorAction`: the ten digit
buttons, decimal, the four operators, equals, clear, all-clear,
backspace. -/
inductive Event where
  | digit : Fin 10 → Event
  | dec : Event
  | operator : Op → Event
  | equals : Event
  | clear : Event
  | allClear : Event
  | back : Event
deriving DecidableEq

/-- One step of the dispatcher. -/
def step : Event → CalcState → CalcState
  | .digit d => handleNumber (digitChar d)
  | .dec => handleDecimal
  | .operator o => handleOperator o
  | .equals => handleEquals
  | .clear => clearCalculator
  | .allClear => handleAllClear
  | .back => handleBackspace

/-- Run a list of events from a given state. -/
def runFrom (s : CalcState) (es : List Event) : CalcState :=
  es.foldl (fun t e => step e t) s

/-- Run a list of events from the initial state. -/
def run (es : List Event) : CalcState := runFrom initState es

/-- States reachable from initialisation by input events. -/
inductive Reachable : CalcState → Prop
  | init : Reachable initState
  | next : ∀ {s : CalcState} (e : Event), Reachable s → Reachable (step e s)

/-- Digit characters of a digit-button sequence. -/
def charsOf (a : List (Fin 10)) : List Char := a.map (fun d => digitChar d)

/-- Digit-button events of a digit sequence. -/
def digitEvents (a : List (Fin 10)) : List Event := a.map Event.digit

/-! ### Basic facts about the JS `split` model -/

theorem splitP_ne_nil (p : Char → Bool) (l : List Char) : splitP p l ≠ [] := by
  cases l with
  | nil => simp [splitP]
  | cons c r =>
    simp only [splitP]
    split
    · simp
    · cases h : splitP p r <;> simp

theorem headD_cons_tail {α : Type} (l : List α) (d : α) (h : l ≠ []) :
    l.headD d :: l.tail = l := by
  cases l with
  | nil => exact absurd rfl h
  | cons x xs => rfl

theorem splitP_cons (p : Char → Bool) (c : Char) (r : List Char) :
    splitP p (c :: r) =
      if p c then [] :: splitP p r
      else (c :: (splitP p r).headD []) :: (splitP p r).tail := by
  simp only [splitP]
  split
  · rfl
  · cases h : splitP p r with
    | nil => exact absurd h (splitP_ne_nil p r)
    | cons s rest => rfl

theorem getLastD_cons_eq {α : Type} (x : α) (xs : List α) (d : α) :
    (x :: xs).getLastD d = xs.getLastD x := List.getLastD_cons d x xs

theorem getLastD_irrel {α : Type} (l : List α) (h : l ≠ []) (d₁ d₂ : α) :
    l.getLastD d₁ = l.getLastD d₂ := by
  cases l with
  | nil => exact absurd rfl h
  | cons x xs => rw [getLastD_cons_eq, getLastD_cons_eq]

theorem dropLast_append_getLastD {α : Type} :
    ∀ (l : List α), l ≠ [] → ∀ d, l.dropLast ++ [l.getLastD d] = l := by
  intro l
  induction l with
  | nil => intro h; exact absurd rfl h
  | cons x xs ih =>
    intro _ d
    cases xs with
    | nil => rfl
    | cons y ys =>
      rw [List.dropLast_cons₂, List.cons_append]
      rw [getLastD_cons_eq, ih (by simp) x]

theorem splitP_append (p : Char → Bool) (a b : List Char) :
    splitP p (a ++ b) =
      (splitP p a).dropLast ++
        ((splitP p a).getLastD [] ++ (splitP p b).headD []) :: (splitP p b).tail := by
  induction a with
  | nil =>
    have h := headD_cons_tail (splitP p b) [] (splitP_ne_nil p b)
    simp only [List.nil_append, splitP, List.dropLast_single]
    simpa using h.symm
  | cons c a ih =>
    rw [List.cons_append, splitP_cons, splitP_cons, ih]
    by_cases hc : p c
    · rw [if_pos hc, if_pos hc]
      cases h : splitP p a with
      | nil => exact absurd h (splitP_ne_nil p a)
      | cons s rest =>
        cases rest with
        | nil => simp
        | cons t ts => simp [getLastD_cons_eq]
    · rw [if_neg hc, if_neg hc]
      cases h : splitP p a with
      | nil => exact absurd h (splitP_ne_nil p a)
      | cons s rest =>
        cases rest with
        | nil => simp
        | cons t ts =>
          simp only [List.headD_cons, List.tail_cons, getLastD_cons_eq]
          rw [List.dropLast_cons₂, List.cons_append]
          simp [getLastD_cons_eq]

theorem splitP_append_sep (p : Char → Bool) (l : List Char) (c : Char) (hc : p c) :
    splitP p (l ++ [c]) = splitP p l ++ [[]] := by
  rw [splitP_append]
  simp only [splitP, hc, if_true]
  simp only [List.headD_cons, List.tail_cons, List.append_nil]
  have h2 : [(splitP p l).getLastD [], ([] : List Char)] =
      [(splitP p l).getLastD []] ++ [[]] := rfl
  rw [h2, ← List.append_assoc, dropLast_append_getLastD (splitP p l) (splitP_ne_nil p l) []]

theorem splitP_append_nonsep (p : Char → Bool) (l : List Char) (c : Char) (hc : ¬p c) :
    splitP p (l ++ [c]) = (splitP p l).dropLast ++ [(splitP p l).getLastD [] ++ [c]] := by
  rw [splitP_append]
  simp [splitP, hc]

theorem splitP_of_forall_not (p : Char → Bool) (l : List Char)
    (h : ∀ c ∈ l, ¬p c) : splitP p l = [l] := by
  induction l with
  | nil => rfl
  | cons c r ih =>
    rw [splitP_cons, if_neg (h c (by simp)), ih (fun x hx => h x (by simp [hx]))]
    rfl

theorem mem_splitP_not (p : Char → Bool) (l : List Char) :
    ∀ s ∈ splitP p l, ∀ c ∈ s, ¬p c := by
  induction l with
  | nil =>
    intro s hs x hx
    simp only [splitP, List.mem_singleton] at hs
    subst hs
    exact absurd hx (List.not_mem_nil x)
  | cons c r ih =>
    intro s hs x hx
    rw [splitP_cons] at hs
    cases hsp : splitP p r with
    | nil => exact absurd hsp (splitP_ne_nil p r)
    | cons a as =>
      rw [hsp] at hs
      by_cases hc : p c
      · rw [if_pos hc] at hs
        rcases List.mem_cons.mp hs with h | h
        · subst h
          exact absurd hx (List.not_mem_nil x)
        · exact ih s (by rw [hsp]; exact h) x hx
      · rw [if_neg hc] at hs
        simp only [List.headD_cons, List.tail_cons] at hs
        rcases List.mem_cons.mp hs with h | h
        · subst h
          rcases List.mem_cons.mp hx with h2 | h2
          · subst h2; exact hc
          · exact ih a (by rw [hsp]; simp) x h2
        · exact ih s (by rw [hsp]; simp [h]) x hx

theorem splitP_headD (p : Char → Bool) (l : List Char) :
    (splitP p l).headD [] = l.takeWhile (fun c => !p c) := by
  induction l with
  | nil => rfl
  | cons c r ih =>
    rw [splitP_cons]
    by_cases hc : p c
    · simp [hc, List.takeWhile_cons]
    · rw [if_neg hc]
      simp only [List.headD_cons, List.takeWhile_cons]
      simp only [hc, Bool.not_eq_true]
      simp only [eq_false_of_ne_true hc, Bool.not_false, if_true]
      rw [ih]

theorem lastPart_of_forall_not (p : Char → Bool) (l : List Char)
    (h : ∀ c ∈ l, ¬p c) : lastPart p l = l := by
  rw [lastPart, splitP_of_forall_not p l h]
  rfl

theorem getLastD_append_right {α : Type} (a : List α) :
    ∀ (b : List α) (d : α), b ≠ [] → (a ++ b).getLastD d = b.getLastD d := by
  induction a with
  | nil => intro b d _; rfl
  | cons x xs ih =>
    intro b d hb
    rw [List.cons_append, getLastD_cons_eq, ih b x hb, getLastD_irrel b hb x d]

theorem lastPart_append_block (p : Char → Bool) (x y : List Char)
    (hy : ∀ c ∈ y, ¬p c) : lastPart p (x ++ y) = lastPart p x ++ y := by
  rw [lastPart, lastPart, splitP_append, splitP_of_forall_not p y hy]
  simp only [List.headD_cons, List.tail_cons, List.append_nil]
  rw [getLastD_append_right _ _ _ (by simp)]
  rfl

theorem lastPart_append_sep (p : Char → Bool) (l : List Char) (c : Char) (hc : p c) :
    lastPart p (l ++ [c]) = [] := by
  rw [lastPart, splitP_append_sep p l c hc]
  rw [getLastD_append_right _ _ _ (by simp)]
  rfl

theorem splitP_first_sep (p : Char → Bool) (u v : List Char) (c : Char)
    (hu : ∀ x ∈ u, ¬p x) (hc : p c) :
    splitP p (u ++ c :: v) = u :: splitP p v := by
  have h1 : splitP p (c :: v) = [] :: splitP p v := by
    rw [splitP_cons, if_pos hc]
  rw [splitP_append, h1, splitP_of_forall_not p u hu]
  simp

theorem eqTail_first (u v : List Char) (hu : '=' ∉ u) :
    eqTail (u ++ '=' :: v) = (splitP (fun c => c = '=') v).headD [] := by
  rw [eqTail, splitP_first_sep _ u v '=' (fun x hx => by
    simp only [decide_eq_true_eq]
    intro h; exact hu (h ▸ hx)) (by simp)]
  cases h : splitP (fun c => c = '=') v with
  | nil => exact absurd h (splitP_ne_nil _ v)
  | cons a as => simp

theorem eqTail_of_eq_free (u v : List Char) (hu : '=' ∉ u) (hv : '=' ∉ v) :
    eqTail (u ++ '=' :: v) = v := by
  rw [eqTail_first u v hu, splitP_of_forall_not _ v (fun x hx => by
    simp only [decide_eq_true_eq]
    intro h; exact hv (h ▸ hx))]
  rfl

theorem exists_first_mem_decomp {α : Type} [DecidableEq α] (c : α) :
    ∀ (l : List α), c ∈ l → ∃ u v, l = u ++ c :: v ∧ c ∉ u := by
  intro l
  induction l with
  | nil => intro h; exact absurd h (List.not_mem_nil c)
  | cons x r ih =>
    intro h
    by_cases hx : x = c
    · exact ⟨[], r, by rw [hx]; rfl, List.not_mem_nil c⟩
    · have hcr : c ∈ r := by
        rcases List.mem_cons.mp h with h1 | h1
        · exact absurd h1.symm hx
        · exact h1
      rcases ih hcr with ⟨u, v, rfl, hu⟩
      refine ⟨x :: u, v, rfl, ?_⟩
      intro hmem
      rcases List.mem_cons.mp hmem with h1 | h1
      · exact hx h1.symm
      · exact hu h1

theorem takeWhile_length_le {α : Type} (p : α → Bool) (l : List α) :
    (l.takeWhile p).length ≤ l.length :=
  (List.takeWhile_sublist p).length_le

theorem eqTail_length_lt (l : List Char) (h : '=' ∈ l) :
    (eqTail l).length < l.length := by
  rcases exists_first_mem_decomp '=' l h with ⟨u, v, rfl, hu⟩
  rw [eqTail_first u v hu, splitP_headD]
  calc (v.takeWhile fun c => !decide (c = '=')).length
      ≤ v.length := takeWhile_length_le _ v
    _ < (u ++ '=' :: v).length := by simp only [List.length_append, List.length_cons]; omega

/-! ### Character classification of number-to-string output -/

theorem natToCharsAux_mem :
    ∀ (fuel n : Nat), ∀ c ∈ natToCharsAux fuel n, ∃ k, k < 10 ∧ c = digitChar k := by
  intro fuel
  induction fuel with
  | zero => intro n c hc; exact absurd hc (List.not_mem_nil c)
  | succ f ih =>
    intro n c hc
    rw [natToCharsAux] at hc
    by_cases hn : n < 10
    · rw [if_pos hn] at hc
      simp only [List.mem_singleton] at hc
      exact ⟨n, hn, hc⟩
    · rw [if_neg hn] at hc
      rcases List.mem_append.mp hc with h | h
      · exact ih (n / 10) c h
      · simp only [List.mem_singleton] at h
        exact ⟨n % 10, Nat.mod_lt n (by norm_num), h⟩

theorem natToChars_mem (n : Nat) : ∀ c ∈ natToChars n, ∃ k, k < 10 ∧ c = digitChar k :=
  natToCharsAux_mem (n + 1) n

theorem natToChars_ne_nil (n : Nat) : natToChars n ≠ [] := by
  rw [natToChars, natToCharsAux]
  by_cases hn : n < 10
  · rw [if_pos hn]; simp
  · rw [if_neg hn]; simp

theorem fracChars_mem :
    ∀ (fuel r d : Nat), r < d → ∀ c ∈ fracChars fuel r d, ∃ k, k < 10 ∧ c = digitChar k := by
  intro fuel
  induction fuel with
  | zero => intro r d _ c hc; exact absurd hc (List.not_mem_nil c)
  | succ f ih =>
    intro r d hrd c hc
    rw [fracChars] at hc
    by_cases hr : r = 0
    · rw [if_pos hr] at hc
      exact absurd hc (List.not_mem_nil c)
    · rw [if_neg hr] at hc
      rcases List.mem_cons.mp hc with h | h
      · refine ⟨r * 10 / d, ?_, h⟩
        have : r * 10 < d * 10 := by omega
        exact Nat.div_lt_of_lt_mul (by omega)
      · exact ih (r * 10 % d) d (Nat.mod_lt _ (by omega)) c h

theorem digitChar_props (k : Nat) (hk : k < 10) :
    isOpEqChar (digitChar k) = false ∧ digitChar k ≠ '.' ∧ (digitChar k).isDigit = true := by
  interval_cases k <;> exact ⟨rfl, by decide, rfl⟩

theorem ratToChars_mem (q : ℚ) :
    ∀ c ∈ ratToChars q, (∃ k, k < 10 ∧ c = digitChar k) ∨ c = '-' ∨ c = '.' := by
  intro c hc
  rw [ratToChars] at hc
  rcases List.mem_append.mp hc with h | h
  · rcases List.mem_append.mp h with h1 | h1
    · by_cases hq : q < 0
      · rw [if_pos hq] at h1
        simp only [List.mem_singleton] at h1
        exact Or.inr (Or.inl h1)
      · rw [if_neg hq] at h1
        exact absurd h1 (List.not_mem_nil c)
    · exact Or.inl (natToChars_mem _ c h1)
  · by_cases hz : q.num.natAbs % q.den = 0
    · rw [if_pos hz] at h
      exact absurd h (List.not_mem_nil c)
    · rw [if_neg hz] at h
      rcases List.mem_cons.mp h with h1 | h1
      · exact Or.inr (Or.inr h1)
      · exact Or.inl (fracChars_mem 64 _ q.den (Nat.mod_lt _ q.den_pos) c h1)

theorem jsNumToChars_mem (v : JSNum) :
    ∀ c ∈ jsNumToChars v,
      (∃ k, k < 10 ∧ c = digitChar k) ∨ c ∈ ['-', '.', 'N', 'a'] := by
  intro c hc
  cases v with
  | nan =>
    have hc2 : c = 'N' ∨ c = 'a' ∨ c = 'N' := by simpa [jsNumToChars] using hc
    refine Or.inr ?_
    rcases hc2 with h | h | h <;> rw [h] <;> decide
  | num q =>
    rcases ratToChars_mem q c hc with h | h | h
    · exact Or.inl h
    · exact Or.inr (by rw [h]; decide)
    · exact Or.inr (by rw [h]; decide)

theorem jsValToChars_mem (r : JSVal) :
    ∀ c ∈ jsValToChars r,
      (∃ k, k < 10 ∧ c = digitChar k) ∨ c ∈ ['-', '.', 'N', 'a', 'E', 'r', 'o'] := by
  intro c hc
  cases r with
  | val v =>
    rcases jsNumToChars_mem v c hc with h | h
    · exact Or.inl h
    · exact Or.inr (List.mem_append_left ['E', 'r', 'o'] h)
  | err =>
    have hc2 : c = 'E' ∨ c = 'r' ∨ c = 'r' ∨ c = 'o' ∨ c = 'r' := by
      simpa [jsValToChars] using hc
    refine Or.inr ?_
    rcases hc2 with h | h | h | h | h <;> rw [h] <;> decide

theorem jsValToChars_no_eq (r : JSVal) : '=' ∉ jsValToChars r := by
  intro h
  rcases jsValToChars_mem r '=' h with ⟨k, hk, he⟩ | h2
  · have := (digitChar_props k hk).1
    rw [← he] at this
    exact absurd this (by decide)
  · exact absurd h2 (by decide)

theorem jsNumToChars_no_eq (v : JSNum) : '=' ∉ jsNumToChars v :=
  jsValToChars_no_eq (JSVal.val v)

theorem jsNumToChars_ne_nil (v : JSNum) : jsNumToChars v ≠ [] := by
  cases v with
  | nan => simp [jsNumToChars]
  | num q =>
    rw [jsNumToChars, ratToChars]
    intro h
    rcases List.append_eq_nil.mp h with ⟨h1, _⟩
    rcases List.append_eq_nil.mp h1 with ⟨_, h3⟩
    exact natToChars_ne_nil _ h3

theorem jsValToChars_ne_nil (r : JSVal) : jsValToChars r ≠ [] := by
  cases r with
  | val v => exact jsNumToChars_ne_nil v
  | err => simp [jsValToChars]

/-! ### Digit characters entered from the keypad -/

theorem isOpChar_of_isOpEqChar_false {c : Char} (h : isOpEqChar c = false) :
    isOpChar c = false := by
  rw [isOpEqChar] at h
  exact (Bool.or_eq_false_iff.mp h).1

theorem ne_eq_of_isOpEqChar_false {c : Char} (h : isOpEqChar c = false) : c ≠ '=' := by
  intro he
  rw [he] at h
  exact absurd h (by decide)

theorem digit_fin_opEq (d : Fin 10) : isOpEqChar (digitChar d) = false :=
  (digitChar_props d d.2).1

theorem digit_fin_ne_dot (d : Fin 10) : digitChar d ≠ '.' :=
  (digitChar_props d d.2).2.1

theorem digit_fin_ne_eq (d : Fin 10) : digitChar d ≠ '=' :=
  ne_eq_of_isOpEqChar_false (digit_fin_opEq d)

theorem charsOf_cons (d : Fin 10) (a : List (Fin 10)) :
    charsOf (d :: a) = digitChar (d : Nat) :: charsOf a := rfl

theorem charsOf_no_eq : ∀ (a : List (Fin 10)), '=' ∉ charsOf a
  | [] => by simp [charsOf]
  | d :: a => by
    rw [charsOf_cons]
    intro h
    rcases List.mem_cons.mp h with h2 | h2
    · exact digit_fin_ne_eq d h2.symm
    · exact charsOf_no_eq a h2

theorem charsOf_no_op : ∀ (a : List (Fin 10)), ∀ c ∈ charsOf a, isOpChar c = false
  | [] => by simp [charsOf]
  | d :: a => by
    rw [charsOf_cons]
    intro c h
    rcases List.mem_cons.mp h with h2 | h2
    · rw [h2]
      exact isOpChar_of_isOpEqChar_false (digit_fin_opEq d)
    · exact charsOf_no_op a c h2

theorem contains_false_of_not_mem {l : List Char} {c : Char} (h : c ∉ l) :
    l.contains c = false := by
  simpa using h

theorem contains_true_of_mem {l : List Char} {c : Char} (h : c ∈ l) :
    l.contains c = true := by
  simpa using h

/-! ### Runs of digit presses -/

theorem handleNumber_flag_false (d : Char) (s : CalcState)
    (h1 : s.shouldResetDisplay = false) (h2 : s.currentEquation ≠ ['0'])
    (h3 : '=' ∉ s.currentEquation) :
    handleNumber d s = { s with currentEquation := s.currentEquation ++ [d] } := by
  rw [handleNumber, h1]
  simp only [Bool.false_eq_true, if_false]
  rw [if_neg]
  intro hor
  rcases hor with h | h
  · exact h2 h
  · rw [contains_false_of_not_mem h3] at h
    exact absurd h (by decide)

theorem handleNumber_flag_true_no_eq (d : Char) (s : CalcState)
    (h1 : s.shouldResetDisplay = true) (h3 : '=' ∉ s.currentEquation) :
    handleNumber d s =
      { s with currentEquation := s.currentEquation ++ [d], shouldResetDisplay := false } := by
  rw [handleNumber, h1]
  simp only [if_true]
  rw [contains_false_of_not_mem h3]
  simp

theorem handleNumber_flag_true_eq (d : Char) (s : CalcState)
    (h1 : s.shouldResetDisplay = true) (h3 : '=' ∈ s.currentEquation) :
    handleNumber d s = { s with currentEquation := [d], shouldResetDisplay := false } := by
  rw [handleNumber, h1, contains_true_of_mem h3]
  simp

theorem handleNumber_flag_false_zero (d : Char) (s : CalcState)
    (h1 : s.shouldResetDisplay = false) (h2 : s.currentEquation = ['0'])
    (_h3 : '=' ∉ s.currentEquation) :
    handleNumber d s = { s with currentEquation := [d] } := by
  rw [handleNumber, h1]
  simp only [Bool.false_eq_true, if_false]
  rw [if_pos (Or.inl h2)]

theorem handleNumber_eq_marker (d : Char) (s : CalcState)
    (h3 : '=' ∈ s.currentEquation) :
    (handleNumber d s).currentEquation = [d] := by
  rw [handleNumber, contains_true_of_mem h3]
  by_cases h1 : s.shouldResetDisplay
  · simp [h1]
  · simp [h1]

theorem append_digit_ne_single (l : List Char) (c z : Char) (h : l ≠ []) :
    l ++ [c] ≠ [z] := by
  intro he
  have hlen := congrArg List.length he
  rw [List.length_append, List.length_singleton, List.length_singleton] at hlen
  have : l.length = 0 := by omega
  exact h (List.length_eq_zero.mp this)

theorem no_eq_append_digit (l : List Char) (d : Fin 10) (h3 : '=' ∉ l) :
    '=' ∉ l ++ [digitChar (d : Nat)] := by
  intro h
  rcases List.mem_append.mp h with h | h
  · exact h3 h
  · simp only [List.mem_singleton] at h
    exact digit_fin_ne_eq d h.symm

theorem runFrom_digits_false (a : List (Fin 10)) :
    ∀ (s : CalcState), s.shouldResetDisplay = false → s.currentEquation ≠ ['0'] →
      '=' ∉ s.currentEquation → s.currentEquation ≠ [] →
      runFrom s (digitEvents a) =
        { s with currentEquation := s.currentEquation ++ charsOf a } := by
  induction a with
  | nil => intro s _ _ _ _; simp [runFrom, digitEvents, charsOf]
  | cons d a ih =>
    intro s h1 h2 h3 h4
    rw [digitEvents, List.map_cons, runFrom, List.foldl_cons]
    show runFrom (step (Event.digit d) s) (digitEvents a) = _
    rw [show step (Event.digit d) s =
      { s with currentEquation := s.currentEquation ++ [digitChar (d : Nat)] } from
      handleNumber_flag_false _ s h1 h2 h3]
    rw [ih { s with currentEquation := s.currentEquation ++ [digitChar (d : Nat)] } h1
      (append_digit_ne_single _ _ _ h4) (no_eq_append_digit _ _ h3) (by simp)]
    simp [charsOf]

theorem runFrom_digits_true (a : List (Fin 10)) (s : CalcState) (hne : a ≠ [])
    (h1 : s.shouldResetDisplay = true) (h3 : '=' ∉ s.currentEquation)
    (h4 : s.currentEquation ≠ []) :
    runFrom s (digitEvents a) =
      { s with currentEquation := s.currentEquation ++ charsOf a,
               shouldResetDisplay := false } := by
  cases a with
  | nil => exact absurd rfl hne
  | cons d a =>
    rw [digitEvents, List.map_cons, runFrom, List.foldl_cons]
    show runFrom (step (Event.digit d) s) (digitEvents a) = _
    rw [show step (Event.digit d) s =
      { s with currentEquation := s.currentEquation ++ [digitChar (d : Nat)],
               shouldResetDisplay := false } from
      handleNumber_flag_true_no_eq _ s h1 h3]
    rw [runFrom_digits_false a
      { s with currentEquation := s.currentEquation ++ [digitChar (d : Nat)],
               shouldResetDisplay := false } rfl
      (append_digit_ne_single _ _ _ h4) (no_eq_append_digit _ _ h3) (by simp)]
    simp [charsOf]

theorem digitChar_fin_ne_zero (d : Fin 10) (hd : d ≠ 0) : digitChar d ≠ '0' := by
  revert d
  decide

theorem run_digits_init (a : List (Fin 10)) (hne : a ≠ [])
    (h0 : 1 < a.length → a.head? ≠ some 0) :
    run (digitEvents a) = { initState with currentEquation := charsOf a } := by
  cases a with
  | nil => exact absurd rfl hne
  | cons d a =>
    rw [run, digitEvents, List.map_cons, runFrom, List.foldl_cons]
    show runFrom (step (Event.digit d) initState) (digitEvents a) = _
    rw [show step (Event.digit d) initState =
      { initState with currentEquation := [digitChar (d : Nat)] } from
      handleNumber_flag_false _ initState rfl (by simp [initState]) (by simp [initState])]
    cases a with
    | nil => simp [runFrom, digitEvents, charsOf]
    | cons e a2 =>
      have hd0 : d ≠ 0 := by
        intro h
        have := h0 (by simp)
        rw [h] at this
        simp at this
      rw [runFrom_digits_false (e :: a2)
        { initState with currentEquation := [digitChar (d : Nat)] } rfl
        (by
          show [digitChar (d : Nat)] ≠ ['0']
          intro h
          exact digitChar_fin_ne_zero d hd0 (by simpa using h))
        (by
          show '=' ∉ [digitChar (d : Nat)]
          intro h
          simp only [List.mem_singleton] at h
          exact digit_fin_ne_eq d h.symm)
        (by simp)]
      simp [charsOf]

/-! ### The equals-marker invariant -/

/-- Invariant maintained by every input event: the buffer holds at most
one equals marker, and while a marker is present the reset flag is set
and the result segment after the marker is nonempty. -/
def InvE (s : CalcState) : Prop :=
  s.currentEquation.count '=' ≤ 1 ∧
    ('=' ∈ s.currentEquation →
      s.shouldResetDisplay = true ∧ eqTail s.currentEquation ≠ [])

theorem invE_of_no_eq (s : CalcState) (h : '=' ∉ s.currentEquation) : InvE s := by
  refine ⟨?_, fun he => absurd he h⟩
  rw [List.count_eq_zero.mpr h]
  omega

theorem opChar_ne_eq (op : Op) : opChar op ≠ '=' := by
  cases op <;> decide

theorem no_eq_append_op (l : List Char) (op : Op) (h : '=' ∉ l) :
    '=' ∉ l ++ [opChar op] := by
  intro hm
  rcases List.mem_append.mp hm with hm | hm
  · exact h hm
  · simp only [List.mem_singleton] at hm
    exact opChar_ne_eq op hm.symm

theorem exists_eq_decomp_of_count_le_one (l : List Char) (h1 : '=' ∈ l)
    (h2 : l.count '=' ≤ 1) :
    ∃ u v, l = u ++ '=' :: v ∧ '=' ∉ u ∧ '=' ∉ v ∧ eqTail l = v := by
  rcases exists_first_mem_decomp '=' l h1 with ⟨u, v, rfl, hu⟩
  have hcu : u.count '=' = 0 := List.count_eq_zero.mpr hu
  have hcnt : (u ++ '=' :: v).count '=' = u.count '=' + (v.count '=' + 1) := by
    rw [List.count_append, List.count_cons]
    simp
  rw [hcnt, hcu] at h2
  have hv : v.count '=' = 0 := by omega
  have hvm : '=' ∉ v := List.count_eq_zero.mp hv
  exact ⟨u, v, rfl, hu, hvm, eqTail_of_eq_free u v hu hvm⟩

theorem eqTail_no_eq (l : List Char) (h1 : '=' ∈ l) (h2 : l.count '=' ≤ 1) :
    '=' ∉ eqTail l := by
  rcases exists_eq_decomp_of_count_le_one l h1 h2 with ⟨u, v, _, _, hvm, ht⟩
  rw [ht]
  exact hvm

theorem invE_handleNumber (d : Fin 10) (s : CalcState) (h : InvE s) :
    InvE (handleNumber (digitChar (d : Nat)) s) := by
  by_cases he : '=' ∈ s.currentEquation
  · have hf := (h.2 he).1
    rw [handleNumber_flag_true_eq (digitChar (d : Nat)) s hf he]
    exact invE_of_no_eq _ (by
      intro hm
      simp only [List.mem_singleton] at hm
      exact digit_fin_ne_eq d hm.symm)
  · by_cases hf : s.shouldResetDisplay = true
    · rw [handleNumber_flag_true_no_eq _ s hf he]
      exact invE_of_no_eq _ (no_eq_append_digit _ d he)
    · have hf2 : s.shouldResetDisplay = false := by
        cases hb : s.shouldResetDisplay
        · rfl
        · exact absurd hb hf
      by_cases h0 : s.currentEquation = ['0']
      · rw [handleNumber_flag_false_zero _ s hf2 h0 he]
        exact invE_of_no_eq _ (by
          intro hm
          simp only [List.mem_singleton] at hm
          exact digit_fin_ne_eq d hm.symm)
      · rw [handleNumber_flag_false _ s hf2 h0 he]
        exact invE_of_no_eq _ (no_eq_append_digit _ d he)

theorem invE_handleDecimal (s : CalcState) (h : InvE s) : InvE (handleDecimal s) := by
  rw [handleDecimal]
  by_cases hf : s.shouldResetDisplay = true
  · rw [hf]
    simp only [if_true]
    by_cases he : '=' ∈ s.currentEquation
    · rw [contains_true_of_mem he]
      simp only [if_true]
      exact invE_of_no_eq _ (by show ('=' : Char) ∉ (['0', '.'] : List Char); decide)
    · rw [contains_false_of_not_mem he]
      simp only [Bool.false_eq_true, if_false]
      refine invE_of_no_eq _ ?_
      show '=' ∉ s.currentEquation ++ ['0', '.']
      intro hm
      rcases List.mem_append.mp hm with hm | hm
      · exact he hm
      · rcases List.mem_cons.mp hm with hm | hm
        · exact absurd hm (by decide)
        · simp only [List.mem_singleton] at hm
          exact absurd hm (by decide)
  · have hf2 : s.shouldResetDisplay = false := by
      cases hb : s.shouldResetDisplay
      · rfl
      · exact absurd hb hf
    have he : '=' ∉ s.currentEquation := by
      intro he
      rw [(h.2 he).1] at hf2
      exact absurd hf2 (by decide)
    rw [hf2]
    simp only [Bool.false_eq_true, if_false]
    by_cases hdot : (lastPart isOpEqChar s.currentEquation).contains '.' = true
    · rw [if_neg (by rw [hdot]; simp)]
      exact ⟨h.1, fun hm => absurd hm he⟩
    · rw [if_pos (by
        cases hb : (lastPart isOpEqChar s.currentEquation).contains '.'
        · simp
        · exact absurd hb hdot)]
      rw [contains_false_of_not_mem he]
      simp only [Bool.false_eq_true, or_false]
      by_cases h0 : s.currentEquation = ['0']
      · rw [if_pos h0]
        exact invE_of_no_eq _ (by show ('=' : Char) ∉ (['0', '.'] : List Char); decide)
      · rw [if_neg h0]
        refine invE_of_no_eq _ ?_
        show '=' ∉ s.currentEquation ++ ['.']
        intro hm
        rcases List.mem_append.mp hm with hm | hm
        · exact he hm
        · simp only [List.mem_singleton] at hm
          exact absurd hm (by decide)

theorem invE_handleOperator (op : Op) (s : CalcState) (_h : InvE s) :
    InvE (handleOperator op s) := by
  rw [handleOperator]
  by_cases he : '=' ∈ s.currentEquation
  · rw [contains_true_of_mem he]
    simp only [if_true]
    have hne : '=' ∉ jsNumToChars (parseFloatJS (eqTail s.currentEquation)) :=
      jsNumToChars_no_eq _
    by_cases h1 : s.firstNumber = none
    · rw [if_pos h1]
      exact invE_of_no_eq _ (no_eq_append_op _ op hne)
    · rw [if_neg h1]
      by_cases h2 : s.currentOperator.isSome ∧ ¬s.shouldResetDisplay = true
      · rw [if_pos h2]
        exact invE_of_no_eq _ (no_eq_append_op _ op (jsValToChars_no_eq _))
      · rw [if_neg h2]
        refine invE_of_no_eq _ (no_eq_append_op _ op ?_)
        intro hm
        exact hne ((List.dropLast_sublist _).subset hm)
  · rw [contains_false_of_not_mem he]
    simp only [Bool.false_eq_true, if_false]
    by_cases h1 : s.firstNumber = none
    · rw [if_pos h1]
      exact invE_of_no_eq _ (no_eq_append_op _ op he)
    · rw [if_neg h1]
      by_cases h2 : s.currentOperator.isSome ∧ ¬s.shouldResetDisplay = true
      · rw [if_pos h2]
        exact invE_of_no_eq _ (no_eq_append_op _ op (jsValToChars_no_eq _))
      · rw [if_neg h2]
        refine invE_of_no_eq _ (no_eq_append_op _ op ?_)
        intro hm
        exact he ((List.dropLast_sublist _).subset hm)

theorem invE_handleEquals (s : CalcState) (h : InvE s) : InvE (handleEquals s) := by
  rw [handleEquals]
  by_cases hg : s.firstNumber.isSome ∧ s.currentOperator.isSome ∧ ¬s.shouldResetDisplay = true
  · rw [if_pos hg]
    have he : '=' ∉ s.currentEquation := by
      intro he
      exact hg.2.2 (h.2 he).1
    have hval : '=' ∉ jsValToChars (operate (s.currentOperator.getD Op.add)
        (s.firstNumber.getD JSNum.nan)
        (parseFloatJS (lastPart isOpChar s.currentEquation))) := jsValToChars_no_eq _
    constructor
    · show (s.currentEquation ++ '=' :: _).count '=' ≤ 1
      rw [List.count_append, List.count_cons]
      rw [List.count_eq_zero.mpr he, List.count_eq_zero.mpr hval]
      simp
    · intro _
      refine ⟨rfl, ?_⟩
      show eqTail (s.currentEquation ++ '=' :: _) ≠ []
      rw [eqTail_of_eq_free _ _ he hval]
      exact jsValToChars_ne_nil _
  · rw [if_neg hg]
    exact h

theorem invE_clearCalculator (s : CalcState) (h : InvE s) : InvE (clearCalculator s) := by
  rw [clearCalculator]
  by_cases hg : s.shouldResetDisplay = true ∨ s.currentEquation.contains '=' = true
  · rw [if_pos hg]
    exact invE_of_no_eq _ (by simp [initState])
  · rw [if_neg hg]
    have he : '=' ∉ s.currentEquation := by
      intro he
      exact hg (Or.inr (contains_true_of_mem he))
    by_cases hp : (splitP isOpChar s.currentEquation).length > 1
    · rw [if_pos hp]
      cases hfind : s.currentEquation.find? isOpChar with
      | none => exact h
      | some c =>
        refine invE_of_no_eq _ ?_
        intro hm
        exact he ((List.take_sublist _ _).subset hm)
    · rw [if_neg hp]
      exact invE_of_no_eq _ (by show ('=' : Char) ∉ ([] : List Char); simp)

theorem invE_handleBackspace (s : CalcState) (h : InvE s) :
    InvE (handleBackspace s) := by
  rw [handleBackspace]
  by_cases he : '=' ∈ s.currentEquation
  · rw [contains_true_of_mem he]
    simp only [if_true]
    exact invE_of_no_eq _ (eqTail_no_eq _ he h.1)
  · rw [contains_false_of_not_mem he]
    simp only [Bool.false_eq_true, if_false]
    by_cases hl : s.currentEquation.length > 1
    · rw [if_pos hl]
      refine invE_of_no_eq _ ?_
      intro hm
      exact he ((List.dropLast_sublist _).subset hm)
    · rw [if_neg hl]
      exact invE_of_no_eq _ (by show ('=' : Char) ∉ (['0'] : List Char); decide)

theorem invE_step (e : Event) (s : CalcState) (h : InvE s) : InvE (step e s) := by
  cases e with
  | digit d => exact invE_handleNumber d s h
  | dec => exact invE_handleDecimal s h
  | operator o => exact invE_handleOperator o s h
  | equals => exact invE_handleEquals s h
  | clear => exact invE_clearCalculator s h
  | allClear =>
    exact invE_of_no_eq _ (by show ('=' : Char) ∉ ([] : List Char); simp)
  | back => exact invE_handleBackspace s h

theorem reachable_invE (s : CalcState) (h : Reachable s) : InvE s := by
  induction h with
  | init => exact invE_of_no_eq _ (by show ('=' : Char) ∉ ([] : List Char); simp)
  | next e _ ih => exact invE_step e _ ih

/-! ### Backspace termination -/

theorem handleBackspace_state (s : CalcState) :
    handleBackspace s = { s with currentEquation := backspaceEq s.currentEquation } := by
  rw [handleBackspace, backspaceEq]
  by_cases he : s.currentEquation.contains '=' = true
  · rw [he]
    simp
  · have he2 : s.currentEquation.contains '=' = false := by
      cases hb : s.currentEquation.contains '='
      · rfl
      · exact absurd hb he
    rw [he2]
    simp only [Bool.false_eq_true, if_false]
    by_cases hl : s.currentEquation.length > 1
    · rw [if_pos hl, if_pos hl]
    · rw [if_neg hl, if_neg hl]

theorem backspaceEq_zero : backspaceEq ['0'] = ['0'] := by decide

theorem backspaceEq_iterate_zero : ∀ n, backspaceEq^[n] ['0'] = ['0'] := by
  intro n
  induction n with
  | zero => rfl
  | succ k ih => rw [Function.iterate_succ_apply, backspaceEq_zero, ih]

theorem backspaceEq_reaches_zero :
    ∀ (k : Nat) (l : List Char), l.length ≤ k → backspaceEq^[k + 1] l = ['0'] := by
  intro k
  induction k with
  | zero =>
    intro l hl
    have : l = [] := List.length_eq_zero.mp (by omega)
    subst this
    rfl
  | succ k ih =>
    intro l hl
    rw [Function.iterate_succ_apply]
    by_cases he : '=' ∈ l
    · have hb : backspaceEq l = eqTail l := by
        rw [backspaceEq, contains_true_of_mem he]
        simp
      rw [hb]
      exact ih _ (by have := eqTail_length_lt l he; omega)
    · rw [show backspaceEq l = if l.length > 1 then l.dropLast else ['0'] from by
        rw [backspaceEq, contains_false_of_not_mem he]
        simp]
      by_cases hl2 : l.length > 1
      · rw [if_pos hl2]
        exact ih _ (by rw [List.length_dropLast]; omega)
      · rw [if_neg hl2]
        exact backspaceEq_iterate_zero (k + 1)

theorem backspaceEq_ne_nil (l : List Char) (h : '=' ∈ l → eqTail l ≠ []) :
    backspaceEq l ≠ [] := by
  rw [backspaceEq]
  by_cases he : '=' ∈ l
  · rw [contains_true_of_mem he]
    simpa using h he
  · rw [contains_false_of_not_mem he]
    simp only [Bool.false_eq_true, if_false]
    by_cases hl : l.length > 1
    · rw [if_pos hl]
      intro hnil
      have := congrArg List.length hnil
      rw [List.length_dropLast] at this
      simp at this
      omega
    · rw [if_neg hl]
      simp

theorem backspaceEq_collapse (u w : List Char) (hu : '=' ∉ u) (hw : '=' ∉ w) :
    backspaceEq (u ++ '=' :: w) = w := by
  rw [backspaceEq, contains_true_of_mem (by simp)]
  simp only [if_true]
  exact eqTail_of_eq_free u w hu hw

theorem reachable_runFrom (es : List Event) :
    ∀ (s : CalcState), Reachable s → Reachable (runFrom s es) := by
  induction es with
  | nil => intro s h; exact h
  | cons e es ih =>
    intro s h
    rw [runFrom, List.foldl_cons]
    exact ih (step e s) (Reachable.next e h)

theorem reachable_run (es : List Event) : Reachable (run es) :=
  reachable_runFrom es initState Reachable.init

theorem runFrom_replicate_back (n : Nat) :
    ∀ (s : CalcState), runFrom s (List.replicate n Event.back) =
      { s with currentEquation := backspaceEq^[n] s.currentEquation } := by
  induction n with
  | zero => intro s; simp [runFrom]
  | succ k ih =>
    intro s
    rw [List.replicate_succ, runFrom, List.foldl_cons]
    show runFrom (step Event.back s) (List.replicate k Event.back) = _
    rw [show step Event.back s = handleBackspace s from rfl, handleBackspace_state, ih]
    rw [Function.iterate_succ_apply]

theorem reachable_backspace_iterate_ne_nil (s : CalcState) (h : Reachable s) (n : Nat) :
    backspaceEq^[n + 1] s.currentEquation ≠ [] := by
  have hr : Reachable (runFrom s (List.replicate n Event.back)) :=
    reachable_runFrom _ s h
  rw [runFrom_replicate_back] at hr
  have hinv := reachable_invE _ hr
  rw [Function.iterate_succ_apply']
  exact backspaceEq_ne_nil _ (fun he => (hinv.2 he).2)

/-! ### Decimal-point segment bookkeeping -/

/-- Every operand segment of the buffer (split at operator characters and
the equals marker) contains at most one decimal point. -/
def SegsOK (l : List Char) : Prop :=
  ∀ seg ∈ splitP isOpEqChar l, seg.count '.' ≤ 1

theorem opChar_isOp (op : Op) : isOpChar (opChar op) = true := by
  cases op <;> decide

theorem isOpEqChar_of_isOpChar {c : Char} (h : isOpChar c = true) :
    isOpEqChar c = true := by
  rw [isOpEqChar, h]
  rfl

theorem getLastD_mem {α : Type} :
    ∀ (l : List α), l ≠ [] → ∀ (d : α), l.getLastD d ∈ l := by
  intro l
  induction l with
  | nil => intro h; exact absurd rfl h
  | cons x xs ih =>
    intro _ d
    rw [getLastD_cons_eq]
    cases hx : xs with
    | nil => simp
    | cons y ys =>
      rw [← hx]
      exact List.mem_cons_of_mem x (ih (by rw [hx]; simp) x)

theorem lastPart_mem (p : Char → Bool) (l : List Char) :
    lastPart p l ∈ splitP p l :=
  getLastD_mem _ (splitP_ne_nil p l) []

theorem segsOK_lastPart {l : List Char} (h : SegsOK l) :
    (lastPart isOpEqChar l).count '.' ≤ 1 :=
  h _ (lastPart_mem _ l)

theorem splitP_sublist (p : Char → Bool) :
    ∀ (l : List Char), ∀ seg ∈ splitP p l, seg.Sublist l := by
  intro l
  induction l with
  | nil =>
    intro seg hseg
    simp only [splitP, List.mem_singleton] at hseg
    subst hseg
    exact List.Sublist.refl []
  | cons c r ih =>
    intro seg hseg
    rw [splitP_cons] at hseg
    cases hsp : splitP p r with
    | nil => exact absurd hsp (splitP_ne_nil p r)
    | cons a as =>
      rw [hsp] at hseg
      by_cases hc : p c
      · rw [if_pos hc] at hseg
        rcases List.mem_cons.mp hseg with h1 | h1
        · subst h1; exact List.nil_sublist _
        · exact (ih seg (by rw [hsp]; exact h1)).cons c
      · rw [if_neg hc] at hseg
        simp only [List.headD_cons, List.tail_cons] at hseg
        rcases List.mem_cons.mp hseg with h1 | h1
        · subst h1
          exact (ih a (by rw [hsp]; simp)).cons₂ c
        · exact (ih seg (by rw [hsp]; simp [h1])).cons c

theorem segsOK_of_count {l : List Char} (h : l.count '.' ≤ 1) : SegsOK l := by
  intro seg hseg
  exact le_trans (List.Sublist.count_le (splitP_sublist isOpEqChar l seg hseg) '.') h

theorem segsOK_append_sep {l : List Char} {c : Char} (hc : isOpEqChar c = true)
    (h : SegsOK l) : SegsOK (l ++ [c]) := by
  intro seg hseg
  rw [splitP_append_sep _ _ _ hc] at hseg
  rcases List.mem_append.mp hseg with h1 | h1
  · exact h seg h1
  · simp only [List.mem_singleton] at h1
    subst h1
    simp

theorem segsOK_append_nonsep {l : List Char} {c : Char} (hc : isOpEqChar c = false)
    (h : SegsOK l)
    (hcnt : (lastPart isOpEqChar l).count '.' + (if c = '.' then 1 else 0) ≤ 1) :
    SegsOK (l ++ [c]) := by
  intro seg hseg
  rw [splitP_append_nonsep _ _ _ (by rw [hc]; simp)] at hseg
  rcases List.mem_append.mp hseg with h1 | h1
  · exact h seg ((List.dropLast_sublist _).subset h1)
  · simp only [List.mem_singleton] at h1
    subst h1
    rw [List.count_append]
    have hcc : List.count '.' [c] = if c = '.' then 1 else 0 := by
      by_cases hcd : c = '.'
      · subst hcd; simp
      · rw [if_neg hcd]
        rw [List.count_eq_zero.mpr (by
          simp only [List.mem_singleton]
          intro hh
          exact hcd hh.symm)]
    rw [hcc]
    exact hcnt

theorem splitP_append_mid_sep (p : Char → Bool) (x y : List Char) (m : Char)
    (hm : p m) : splitP p (x ++ m :: y) = splitP p x ++ splitP p y := by
  rw [splitP_append]
  rw [show splitP p (m :: y) = [] :: splitP p y from by rw [splitP_cons, if_pos hm]]
  simp only [List.headD_cons, List.tail_cons, List.append_nil]
  rw [show (splitP p x).dropLast ++ (splitP p x).getLastD [] :: splitP p y =
    ((splitP p x).dropLast ++ [(splitP p x).getLastD []]) ++ splitP p y from by simp]
  rw [dropLast_append_getLastD _ (splitP_ne_nil p x) []]

theorem segsOK_append_mid_sep {x y : List Char} {m : Char} (hm : isOpEqChar m = true)
    (hx : SegsOK x) (hy : SegsOK y) : SegsOK (x ++ m :: y) := by
  intro seg hseg
  rw [splitP_append_mid_sep _ _ _ _ hm] at hseg
  rcases List.mem_append.mp hseg with h1 | h1
  · exact hx seg h1
  · exact hy seg h1

theorem segsOK_left_of_mid_sep (x y : List Char) (m : Char) (hm : isOpEqChar m = true)
    (h : SegsOK (x ++ m :: y)) : SegsOK x := by
  intro seg hseg
  exact h seg (by
    rw [splitP_append_mid_sep _ _ _ _ hm]
    exact List.mem_append.mpr (Or.inl hseg))

theorem mem_dropLast_or_getLastD {α : Type} (l : List α) (d : α) (h : l ≠ [])
    (x : α) (hx : x ∈ l) : x ∈ l.dropLast ∨ x = l.getLastD d := by
  rcases List.mem_append.mp (by
    rw [dropLast_append_getLastD l h d]
    exact hx) with h1 | h1
  · exact Or.inl h1
  · simp only [List.mem_singleton] at h1
    exact Or.inr h1

theorem segsOK_dropLast {l : List Char} (h : SegsOK l) : SegsOK l.dropLast := by
  cases hl : l with
  | nil => intro seg hseg; simp only [List.dropLast_nil] at hseg; exact h seg (hl ▸ hseg)
  | cons c r =>
    rw [← hl]
    have hne : l ≠ [] := by rw [hl]; simp
    have hdecomp : l = l.dropLast ++ [l.getLastD 'x'] := (dropLast_append_getLastD l hne 'x').symm
    by_cases hsep : isOpEqChar (l.getLastD 'x') = true
    · intro seg hseg
      refine h seg ?_
      rw [hdecomp, splitP_append_sep _ _ _ hsep]
      exact List.mem_append.mpr (Or.inl hseg)
    · intro seg hseg
      have hsep2 : isOpEqChar (l.getLastD 'x') = false := by
        cases hb : isOpEqChar (l.getLastD 'x')
        · rfl
        · exact absurd hb hsep
      have hsplit : splitP isOpEqChar l =
          (splitP isOpEqChar l.dropLast).dropLast ++
            [(splitP isOpEqChar l.dropLast).getLastD [] ++ [l.getLastD 'x']] := by
        conv_lhs => rw [hdecomp]
        exact splitP_append_nonsep _ _ _ (by rw [hsep2]; simp)
      rcases mem_dropLast_or_getLastD _ [] (splitP_ne_nil isOpEqChar l.dropLast) seg hseg
        with h1 | h1
      · refine h seg ?_
        rw [hsplit]
        exact List.mem_append.mpr (Or.inl h1)
      · have hin : (splitP isOpEqChar l.dropLast).getLastD [] ++ [l.getLastD 'x'] ∈
            splitP isOpEqChar l := by
          rw [hsplit]
          exact List.mem_append.mpr (Or.inr (by simp))
        have := h _ hin
        rw [List.count_append] at this
        rw [h1]
        omega

theorem count_dot_natToCharsAux (fuel n : Nat) :
    (natToCharsAux fuel n).count '.' = 0 := by
  rw [List.count_eq_zero]
  intro hm
  rcases natToCharsAux_mem fuel n '.' hm with ⟨k, hk, hdk⟩
  exact (digitChar_props k hk).2.1 hdk.symm

theorem count_dot_fracChars (fuel r d : Nat) (hrd : r < d) :
    (fracChars fuel r d).count '.' = 0 := by
  rw [List.count_eq_zero]
  intro hm
  rcases fracChars_mem fuel r d hrd '.' hm with ⟨k, hk, hdk⟩
  exact (digitChar_props k hk).2.1 hdk.symm

theorem count_dot_jsVal (r : JSVal) : (jsValToChars r).count '.' ≤ 1 := by
  cases r with
  | err => decide
  | val v =>
    cases v with
    | nan => decide
    | num q =>
      show (ratToChars q).count '.' ≤ 1
      rw [ratToChars, List.count_append, List.count_append]
      have h1 : List.count '.' (if q < 0 then ['-'] else []) = 0 := by
        by_cases hq : q < 0
        · rw [if_pos hq]; decide
        · rw [if_neg hq]; decide
      have h2 : (natToChars (q.num.natAbs / q.den)).count '.' = 0 :=
        count_dot_natToCharsAux _ _
      have h3 : List.count '.'
          (if q.num.natAbs % q.den = 0 then []
           else '.' :: fracChars 64 (q.num.natAbs % q.den) q.den) ≤ 1 := by
        by_cases hz : q.num.natAbs % q.den = 0
        · rw [if_pos hz]; decide
        · rw [if_neg hz, List.count_cons]
          rw [count_dot_fracChars 64 _ q.den (Nat.mod_lt _ q.den_pos)]
          simp
      omega

theorem segsOK_jsVal (r : JSVal) : SegsOK (jsValToChars r) :=
  segsOK_of_count (count_dot_jsVal r)

theorem segsOK_jsNum (v : JSNum) : SegsOK (jsNumToChars v) :=
  segsOK_jsVal (JSVal.val v)

/-! ### Last-index decomposition for the clear handler -/

theorem indexOf_first (c : Char) :
    ∀ (w w' : List Char), c ∉ w → (w ++ c :: w').indexOf c = w.length := by
  intro w
  induction w with
  | nil => intro w' _; simp [List.indexOf_cons_self]
  | cons x xs ih =>
    intro w' hw
    have hx : x ≠ c := by
      intro h
      exact hw (by rw [h]; simp)
    rw [List.cons_append, List.indexOf_cons_ne _ hx, ih w' (fun hm => hw (by simp [hm]))]
    rfl

theorem lastIdxOf_decomp (c : Char) (l : List Char) (h : c ∈ l) :
    ∃ u v, l = u ++ c :: v ∧ c ∉ v ∧ lastIdxOf c l = u.length ∧
      l.take (u.length + 1) = u ++ [c] := by
  have hrev : c ∈ l.reverse := List.mem_reverse.mpr h
  rcases exists_first_mem_decomp c l.reverse hrev with ⟨w, w', hw, hwmem⟩
  have hl : l = w'.reverse ++ c :: w.reverse := by
    have h2 := congrArg List.reverse hw
    rw [List.reverse_reverse] at h2
    rw [h2]
    simp
  refine ⟨w'.reverse, w.reverse, hl, by simpa using hwmem, ?_, ?_⟩
  · rw [lastIdxOf, hw, indexOf_first c w w' hwmem]
    have hlen : l.length = w'.length + w.length + 1 := by
      rw [hl]
      simp only [List.length_append, List.length_cons, List.length_reverse]
      omega
    rw [hlen]
    simp only [List.length_reverse]
    omega
  · rw [hl, show w'.reverse ++ c :: w.reverse = (w'.reverse ++ [c]) ++ w.reverse from by simp]
    rw [List.take_left' (by simp)]

/-! ### The decimal-point invariant (maintained without Backspace) -/

/-- Invariant of runs that never press Backspace: all operand segments
have at most one dot, a set reset flag means the buffer is empty, ends
with an operator character, or holds an equals marker, and an equals
marker forces the flag. -/
def InvD (s : CalcState) : Prop :=
  SegsOK s.currentEquation ∧
    (s.shouldResetDisplay = true →
      s.currentEquation = [] ∨ '=' ∈ s.currentEquation ∨
        ∃ y c, s.currentEquation = y ++ [c] ∧ isOpChar c = true) ∧
    ('=' ∈ s.currentEquation → s.shouldResetDisplay = true)

theorem segsOK_single_digit (d : Fin 10) : SegsOK [digitChar (d : Nat)] := by
  refine segsOK_of_count ?_
  rw [List.count_eq_zero.mpr (by
    simp only [List.mem_singleton]
    intro hh
    exact digit_fin_ne_dot d hh.symm)]
  omega

theorem invD_handleNumber (d : Fin 10) (s : CalcState) (h : InvD s) :
    InvD (handleNumber (digitChar (d : Nat)) s) := by
  obtain ⟨hA, hB, hC⟩ := h
  by_cases he : '=' ∈ s.currentEquation
  · rw [handleNumber_flag_true_eq _ s (hC he) he]
    refine ⟨segsOK_single_digit d, ?_, ?_⟩
    · intro hff
      exact absurd hff (by simp)
    · intro hm
      have hm2 : '=' = digitChar (d : Nat) := by simpa using hm
      exact absurd hm2.symm (digit_fin_ne_eq d)
  · by_cases hf : s.shouldResetDisplay = true
    · rw [handleNumber_flag_true_no_eq _ s hf he]
      refine ⟨?_, ?_, ?_⟩
      · show SegsOK (s.currentEquation ++ [digitChar (d : Nat)])
        rcases hB hf with h0 | h0 | ⟨y, c, hyc, hcop⟩
        · rw [h0]
          exact segsOK_single_digit d
        · exact absurd h0 he
        · rw [hyc, show y ++ [c] ++ [digitChar (d : Nat)] =
            y ++ c :: [digitChar (d : Nat)] from by simp]
          exact segsOK_append_mid_sep (isOpEqChar_of_isOpChar hcop)
            (segsOK_left_of_mid_sep y [] c (isOpEqChar_of_isOpChar hcop) (by
              rw [show y ++ c :: ([] : List Char) = y ++ [c] from rfl, ← hyc]
              exact hA))
            (segsOK_single_digit d)
      · intro hff
        exact absurd hff (by simp)
      · intro hm
        exact absurd (by simpa using hm) (no_eq_append_digit _ d he)
    · have hf2 : s.shouldResetDisplay = false := by
        cases hb : s.shouldResetDisplay
        · rfl
        · exact absurd hb hf
      by_cases h0 : s.currentEquation = ['0']
      · rw [handleNumber_flag_false_zero _ s hf2 h0 he]
        refine ⟨segsOK_single_digit d, ?_, ?_⟩
        · intro hff
          rw [show ({ s with currentEquation := [digitChar (d : Nat)] } :
            CalcState).shouldResetDisplay = s.shouldResetDisplay from rfl, hf2] at hff
          exact absurd hff (by decide)
        · intro hm
          have hm2 : '=' = digitChar (d : Nat) := by simpa using hm
          exact absurd hm2.symm (digit_fin_ne_eq d)
      · rw [handleNumber_flag_false _ s hf2 h0 he]
        refine ⟨?_, ?_, ?_⟩
        · show SegsOK (s.currentEquation ++ [digitChar (d : Nat)])
          refine segsOK_append_nonsep (digit_fin_opEq d) hA ?_
          rw [if_neg (digit_fin_ne_dot d)]
          have := segsOK_lastPart hA
          omega
        · intro hff
          rw [show ({ s with currentEquation := s.currentEquation ++ [digitChar (d : Nat)] } :
            CalcState).shouldResetDisplay = s.shouldResetDisplay from rfl, hf2] at hff
          exact absurd hff (by decide)
        · intro hm
          exact absurd (by simpa using hm) (no_eq_append_digit _ d he)

/-! ### Branch lemmas for the remaining handlers -/

theorem handleDecimal_flag_true_eq (s : CalcState) (hf : s.shouldResetDisplay = true)
    (he : '=' ∈ s.currentEquation) :
    handleDecimal s = { s with currentEquation := ['0', '.'], shouldResetDisplay := false } := by
  rw [handleDecimal, hf, contains_true_of_mem he]
  simp

theorem handleDecimal_flag_true_no_eq (s : CalcState) (hf : s.shouldResetDisplay = true)
    (he : '=' ∉ s.currentEquation) :
    handleDecimal s = { s with currentEquation := s.currentEquation ++ ['0', '.'],
                               shouldResetDisplay := false } := by
  rw [handleDecimal, hf, contains_false_of_not_mem he]
  simp

theorem handleDecimal_flag_false_dot (s : CalcState) (hf : s.shouldResetDisplay = false)
    (hdot : '.' ∈ lastPart isOpEqChar s.currentEquation) :
    handleDecimal s = s := by
  rw [handleDecimal, hf, contains_true_of_mem hdot]
  simp

theorem handleDecimal_flag_false_nodot_fresh (s : CalcState)
    (hf : s.shouldResetDisplay = false)
    (hdot : '.' ∉ lastPart isOpEqChar s.currentEquation)
    (h0 : s.currentEquation = ['0'] ∨ '=' ∈ s.currentEquation) :
    handleDecimal s = { s with currentEquation := ['0', '.'] } := by
  have hcond : s.currentEquation = ['0'] ∨ s.currentEquation.contains '=' = true := by
    rcases h0 with h0 | h0
    · exact Or.inl h0
    · exact Or.inr (contains_true_of_mem h0)
  rw [handleDecimal, hf, contains_false_of_not_mem hdot]
  simp only [Bool.false_eq_true, if_false, not_false_eq_true, if_true]
  rw [if_pos hcond]

theorem handleDecimal_flag_false_nodot_plain (s : CalcState)
    (hf : s.shouldResetDisplay = false)
    (hdot : '.' ∉ lastPart isOpEqChar s.currentEquation)
    (h0 : s.currentEquation ≠ ['0']) (he : '=' ∉ s.currentEquation) :
    handleDecimal s = { s with currentEquation := s.currentEquation ++ ['.'] } := by
  have hcond : ¬(s.currentEquation = ['0'] ∨ s.currentEquation.contains '=' = true) := by
    intro hor
    rcases hor with h | h
    · exact h0 h
    · rw [contains_false_of_not_mem he] at h
      exact absurd h (by decide)
  rw [handleDecimal, hf, contains_false_of_not_mem hdot]
  simp only [Bool.false_eq_true, if_false, not_false_eq_true, if_true]
  rw [if_neg hcond]

theorem handleEquals_noop (s : CalcState)
    (hg : s.firstNumber = none ∨ s.currentOperator = none ∨ s.shouldResetDisplay = true) :
    handleEquals s = s := by
  rw [handleEquals, if_neg]
  intro ⟨h1, h2, h3⟩
  rcases hg with h | h | h
  · rw [h] at h1
    exact absurd h1 (by decide)
  · rw [h] at h2
    exact absurd h2 (by decide)
  · exact h3 h

theorem handleEquals_fire (s : CalcState) (fn : JSNum) (op : Op)
    (h1 : s.firstNumber = some fn) (h2 : s.currentOperator = some op)
    (h3 : s.shouldResetDisplay = false) :
    handleEquals s =
      { currentEquation := s.currentEquation ++
          '=' :: jsValToChars (operate op fn (parseFloatJS (lastPart isOpChar s.currentEquation)))
        firstNumber := none
        secondNumber := none
        currentOperator := none
        shouldResetDisplay := true } := by
  rw [handleEquals, if_pos (by
    refine ⟨by rw [h1]; rfl, by rw [h2]; rfl, by rw [h3]; decide⟩)]
  rw [h1, h2]
  rfl

theorem handleOperator_case1 (op : Op) (s : CalcState)
    (he : '=' ∉ s.currentEquation) (h1 : s.firstNumber = none) :
    handleOperator op s =
      { currentEquation := s.currentEquation ++ [opChar op]
        firstNumber := some (parseFloatJS (lastPart isOpChar s.currentEquation))
        secondNumber := s.secondNumber
        currentOperator := some op
        shouldResetDisplay := true } := by
  rw [handleOperator, contains_false_of_not_mem he]
  simp only [Bool.false_eq_true, if_false]
  rw [if_pos h1]

theorem handleOperator_case1_eqm (op : Op) (s : CalcState)
    (he : '=' ∈ s.currentEquation) (h1 : s.firstNumber = none) :
    handleOperator op s =
      { currentEquation := jsNumToChars (parseFloatJS (eqTail s.currentEquation)) ++ [opChar op]
        firstNumber := some (parseFloatJS (eqTail s.currentEquation))
        secondNumber := s.secondNumber
        currentOperator := some op
        shouldResetDisplay := true } := by
  rw [handleOperator, contains_true_of_mem he]
  simp only [if_true]
  rw [if_pos h1]

theorem handleOperator_case2 (op : Op) (s : CalcState) (fn : JSNum) (o2 : Op)
    (he : '=' ∉ s.currentEquation) (h1 : s.firstNumber = some fn)
    (h2 : s.currentOperator = some o2) (h3 : s.shouldResetDisplay = false) :
    handleOperator op s =
      { currentEquation := jsValToChars (operate o2 fn
          (parseFloatJS (lastPart isOpChar s.currentEquation))) ++ [opChar op]
        firstNumber := some (parseFloatVal (operate o2 fn
          (parseFloatJS (lastPart isOpChar s.currentEquation))))
        secondNumber := some (parseFloatJS (lastPart isOpChar s.currentEquation))
        currentOperator := some op
        shouldResetDisplay := true } := by
  rw [handleOperator, contains_false_of_not_mem he]
  simp only [Bool.false_eq_true, if_false]
  rw [if_neg (by rw [h1]; simp)]
  rw [if_pos (by refine ⟨by rw [h2]; rfl, by rw [h3]; decide⟩)]
  rw [h1, h2]
  rfl

theorem handleOperator_case3 (op : Op) (s : CalcState)
    (he : '=' ∉ s.currentEquation) (h1 : s.firstNumber ≠ none)
    (hor : ¬(s.currentOperator.isSome ∧ ¬s.shouldResetDisplay = true)) :
    handleOperator op s =
      { currentEquation := s.currentEquation.dropLast ++ [opChar op]
        firstNumber := s.firstNumber
        secondNumber := s.secondNumber
        currentOperator := some op
        shouldResetDisplay := true } := by
  rw [handleOperator, contains_false_of_not_mem he]
  simp only [Bool.false_eq_true, if_false]
  rw [if_neg h1, if_neg hor]

theorem handleOperator_case2_eqm (op : Op) (s : CalcState) (fn : JSNum) (o2 : Op)
    (he : '=' ∈ s.currentEquation) (h1 : s.firstNumber = some fn)
    (h2 : s.currentOperator = some o2) (h3 : s.shouldResetDisplay = false) :
    handleOperator op s =
      { currentEquation := jsValToChars (operate o2 fn
          (parseFloatJS (eqTail s.currentEquation))) ++ [opChar op]
        firstNumber := some (parseFloatVal (operate o2 fn
          (parseFloatJS (eqTail s.currentEquation))))
        secondNumber := some (parseFloatJS (eqTail s.currentEquation))
        currentOperator := some op
        shouldResetDisplay := true } := by
  rw [handleOperator, contains_true_of_mem he]
  simp only [if_true]
  rw [if_neg (by rw [h1]; simp)]
  rw [if_pos (by refine ⟨by rw [h2]; rfl, by rw [h3]; decide⟩)]
  rw [h1, h2]
  rfl

theorem handleOperator_case3_eqm (op : Op) (s : CalcState)
    (he : '=' ∈ s.currentEquation) (h1 : s.firstNumber ≠ none)
    (hor : ¬(s.currentOperator.isSome ∧ ¬s.shouldResetDisplay = true)) :
    handleOperator op s =
      { currentEquation := (jsNumToChars (parseFloatJS (eqTail s.currentEquation))).dropLast
          ++ [opChar op]
        firstNumber := s.firstNumber
        secondNumber := s.secondNumber
        currentOperator := some op
        shouldResetDisplay := true } := by
  rw [handleOperator, contains_true_of_mem he]
  simp only [if_true]
  rw [if_neg h1, if_neg hor]

theorem splitP_length_gt_one (p : Char → Bool) :
    ∀ (l : List Char), (∃ x ∈ l, p x = true) ↔ (splitP p l).length > 1 := by
  intro l
  induction l with
  | nil => simp [splitP]
  | cons c r ih =>
    rw [splitP_cons]
    by_cases hc : p c
    · rw [if_pos hc]
      constructor
      · intro _
        have := splitP_ne_nil p r
        cases hsp : splitP p r with
        | nil => exact absurd hsp this
        | cons a as => simp
      · intro _
        exact ⟨c, by simp, hc⟩
    · rw [if_neg hc]
      cases hsp : splitP p r with
      | nil => exact absurd hsp (splitP_ne_nil p r)
      | cons a as =>
        rw [hsp] at ih
        constructor
        · intro ⟨x, hx, hpx⟩
          rcases List.mem_cons.mp hx with h1 | h1
          · rw [h1] at hpx
            exact absurd hpx hc
          · have := ih.mp ⟨x, h1, hpx⟩
            simpa using this
        · intro hlen
          rcases ih.mpr (by simpa using hlen) with ⟨x, hx, hpx⟩
          exact ⟨x, by simp [hx], hpx⟩

theorem clearCalculator_reset (s : CalcState)
    (hg : s.shouldResetDisplay = true ∨ '=' ∈ s.currentEquation) :
    clearCalculator s = initState := by
  rw [clearCalculator, if_pos (by
    rcases hg with h | h
    · exact Or.inl h
    · exact Or.inr (contains_true_of_mem h))]

theorem clearCalculator_op (s : CalcState) (c : Char)
    (hf : s.shouldResetDisplay = false) (he : '=' ∉ s.currentEquation)
    (hfind : s.currentEquation.find? isOpChar = some c) :
    clearCalculator s =
      { s with currentEquation := s.currentEquation.take (lastIdxOf c s.currentEquation + 1)
               shouldResetDisplay := true } := by
  rw [clearCalculator, if_neg (by
    intro hor
    rcases hor with h | h
    · rw [hf] at h
      exact absurd h (by decide)
    · rw [contains_false_of_not_mem he] at h
      exact absurd h (by decide))]
  rw [if_pos (by
    refine (splitP_length_gt_one isOpChar s.currentEquation).mp ?_
    exact ⟨c, List.mem_of_find?_eq_some hfind, List.find?_some hfind⟩)]
  rw [hfind]

theorem clearCalculator_no_op (s : CalcState)
    (hf : s.shouldResetDisplay = false) (he : '=' ∉ s.currentEquation)
    (hfind : s.currentEquation.find? isOpChar = none) :
    clearCalculator s = { s with currentEquation := [] } := by
  rw [clearCalculator, if_neg (by
    intro hor
    rcases hor with h | h
    · rw [hf] at h
      exact absurd h (by decide)
    · rw [contains_false_of_not_mem he] at h
      exact absurd h (by decide))]
  rw [if_neg (by
    intro hgt
    rcases (splitP_length_gt_one isOpChar s.currentEquation).mpr hgt with ⟨x, hx, hpx⟩
    have := List.find?_eq_none.mp hfind x hx
    rw [hpx] at this
    exact absurd this (by decide))]

/-! ### Preservation of the decimal-point invariant -/

theorem segsOK_nil : SegsOK [] := segsOK_of_count (by decide)

theorem segsOK_zero_dot : SegsOK ['0', '.'] := segsOK_of_count (by decide)

theorem invD_initState : InvD initState := by
  refine ⟨segsOK_nil, ?_, ?_⟩
  · intro hff
    exact absurd hff (by decide)
  · intro hm
    exact absurd hm (List.not_mem_nil '=')

theorem segsOK_append_zero_dot (s : CalcState) (hA : SegsOK s.currentEquation)
    (hB : s.currentEquation = [] ∨ '=' ∈ s.currentEquation ∨
      ∃ y c, s.currentEquation = y ++ [c] ∧ isOpChar c = true)
    (he : '=' ∉ s.currentEquation) :
    SegsOK (s.currentEquation ++ ['0', '.']) := by
  rcases hB with h0 | h0 | ⟨y, c, hyc, hcop⟩
  · rw [h0]
    exact segsOK_zero_dot
  · exact absurd h0 he
  · rw [hyc, show y ++ [c] ++ ['0', '.'] = y ++ c :: ['0', '.'] from by simp]
    refine segsOK_append_mid_sep (isOpEqChar_of_isOpChar hcop) ?_ segsOK_zero_dot
    refine segsOK_left_of_mid_sep y [] c (isOpEqChar_of_isOpChar hcop) ?_
    rw [show y ++ c :: ([] : List Char) = y ++ [c] from rfl, ← hyc]
    exact hA

theorem invD_handleDecimal (s : CalcState) (h : InvD s) : InvD (handleDecimal s) := by
  obtain ⟨hA, hB, hC⟩ := h
  by_cases hf : s.shouldResetDisplay = true
  · by_cases he : '=' ∈ s.currentEquation
    · rw [handleDecimal_flag_true_eq s hf he]
      refine ⟨segsOK_zero_dot, ?_, ?_⟩
      · intro hff
        exact absurd hff (by simp)
      · intro hm
        have hm2 : '=' ∈ (['0', '.'] : List Char) := by simpa using hm
        exact absurd hm2 (by decide)
    · rw [handleDecimal_flag_true_no_eq s hf he]
      refine ⟨segsOK_append_zero_dot s hA (hB hf) he, ?_, ?_⟩
      · intro hff
        exact absurd hff (by simp)
      · intro hm
        have hm2 : '=' ∈ s.currentEquation ++ ['0', '.'] := by simpa using hm
        rcases List.mem_append.mp hm2 with h1 | h1
        · exact absurd h1 he
        · exact absurd h1 (by decide)
  · have hf2 : s.shouldResetDisplay = false := by
      cases hb : s.shouldResetDisplay
      · rfl
      · exact absurd hb hf
    have he : '=' ∉ s.currentEquation := fun hm => hf (hC hm)
    by_cases hdot : '.' ∈ lastPart isOpEqChar s.currentEquation
    · rw [handleDecimal_flag_false_dot s hf2 hdot]
      exact ⟨hA, hB, hC⟩
    · by_cases h0 : s.currentEquation = ['0']
      · rw [handleDecimal_flag_false_nodot_fresh s hf2 hdot (Or.inl h0)]
        refine ⟨segsOK_zero_dot, ?_, ?_⟩
        · intro hff
          rw [show ({ s with currentEquation := ['0', '.'] } :
            CalcState).shouldResetDisplay = s.shouldResetDisplay from rfl, hf2] at hff
          exact absurd hff (by decide)
        · intro hm
          have hm2 : '=' ∈ (['0', '.'] : List Char) := by simpa using hm
          exact absurd hm2 (by decide)
      · rw [handleDecimal_flag_false_nodot_plain s hf2 hdot h0 he]
        refine ⟨?_, ?_, ?_⟩
        · show SegsOK (s.currentEquation ++ ['.'])
          refine segsOK_append_nonsep (by decide) hA ?_
          rw [if_pos rfl, List.count_eq_zero.mpr hdot]
        · intro hff
          rw [show ({ s with currentEquation := s.currentEquation ++ ['.'] } :
            CalcState).shouldResetDisplay = s.shouldResetDisplay from rfl, hf2] at hff
          exact absurd hff (by decide)
        · intro hm
          have hm2 : '=' ∈ s.currentEquation ++ ['.'] := by simpa using hm
          rcases List.mem_append.mp hm2 with h1 | h1
          · exact absurd h1 he
          · exact absurd h1 (by decide)

theorem invD_ends_op (X : List Char) (op : Op) (f2 s2 : Option JSNum) (o3 : Option Op)
    (hX : SegsOK X) :
    InvD { currentEquation := X ++ [opChar op]
           firstNumber := f2
           secondNumber := s2
           currentOperator := o3
           shouldResetDisplay := true } := by
  refine ⟨segsOK_append_sep (isOpEqChar_of_isOpChar (opChar_isOp op)) hX, ?_, ?_⟩
  · intro _
    exact Or.inr (Or.inr ⟨X, opChar op, rfl, opChar_isOp op⟩)
  · intro _
    rfl

theorem invD_handleOperator (op : Op) (s : CalcState) (h : InvD s) :
    InvD (handleOperator op s) := by
  obtain ⟨hA, _, _⟩ := h
  by_cases he : '=' ∈ s.currentEquation
  · by_cases h1 : s.firstNumber = none
    · rw [handleOperator_case1_eqm op s he h1]
      exact invD_ends_op _ op _ _ _ (segsOK_jsNum _)
    · by_cases h2 : s.currentOperator.isSome ∧ ¬s.shouldResetDisplay = true
      · obtain ⟨fn, hfn⟩ := Option.ne_none_iff_exists'.mp h1
        obtain ⟨o2, ho2⟩ := Option.isSome_iff_exists.mp h2.1
        have h3 : s.shouldResetDisplay = false := by
          cases hb : s.shouldResetDisplay
          · rfl
          · exact absurd hb h2.2
        rw [handleOperator_case2_eqm op s fn o2 he hfn ho2 h3]
        exact invD_ends_op _ op _ _ _ (segsOK_jsVal _)
      · rw [handleOperator_case3_eqm op s he h1 h2]
        exact invD_ends_op _ op _ _ _ (segsOK_dropLast (segsOK_jsNum _))
  · by_cases h1 : s.firstNumber = none
    · rw [handleOperator_case1 op s he h1]
      exact invD_ends_op _ op _ _ _ hA
    · by_cases h2 : s.currentOperator.isSome ∧ ¬s.shouldResetDisplay = true
      · obtain ⟨fn, hfn⟩ := Option.ne_none_iff_exists'.mp h1
        obtain ⟨o2, ho2⟩ := Option.isSome_iff_exists.mp h2.1
        have h3 : s.shouldResetDisplay = false := by
          cases hb : s.shouldResetDisplay
          · rfl
          · exact absurd hb h2.2
        rw [handleOperator_case2 op s fn o2 he hfn ho2 h3]
        exact invD_ends_op _ op _ _ _ (segsOK_jsVal _)
      · rw [handleOperator_case3 op s he h1 h2]
        exact invD_ends_op _ op _ _ _ (segsOK_dropLast hA)

theorem invD_handleEquals (s : CalcState) (h : InvD s) : InvD (handleEquals s) := by
  obtain ⟨hA, hB, hC⟩ := h
  by_cases h1 : s.firstNumber = none
  · rw [handleEquals_noop s (Or.inl h1)]
    exact ⟨hA, hB, hC⟩
  · by_cases h2 : s.currentOperator = none
    · rw [handleEquals_noop s (Or.inr (Or.inl h2))]
      exact ⟨hA, hB, hC⟩
    · by_cases h3 : s.shouldResetDisplay = true
      · rw [handleEquals_noop s (Or.inr (Or.inr h3))]
        exact ⟨hA, hB, hC⟩
      · obtain ⟨fn, hfn⟩ := Option.ne_none_iff_exists'.mp h1
        obtain ⟨o2, ho2⟩ := Option.ne_none_iff_exists'.mp h2
        have hf2 : s.shouldResetDisplay = false := by
          cases hb : s.shouldResetDisplay
          · rfl
          · exact absurd hb h3
        rw [handleEquals_fire s fn o2 hfn ho2 hf2]
        refine ⟨?_, ?_, ?_⟩
        · exact segsOK_append_mid_sep (by decide) hA (segsOK_jsVal _)
        · intro _
          refine Or.inr (Or.inl ?_)
          show '=' ∈ s.currentEquation ++ '=' :: _
          simp
        · intro _
          rfl

theorem invD_clearCalculator (s : CalcState) (h : InvD s) : InvD (clearCalculator s) := by
  obtain ⟨hA, hB, hC⟩ := h
  by_cases hg : s.shouldResetDisplay = true ∨ '=' ∈ s.currentEquation
  · rw [clearCalculator_reset s hg]
    exact invD_initState
  · have hf2 : s.shouldResetDisplay = false := by
      cases hb : s.shouldResetDisplay
      · rfl
      · exact absurd (Or.inl hb) hg
    have he : '=' ∉ s.currentEquation := fun hm => hg (Or.inr hm)
    cases hfind : s.currentEquation.find? isOpChar with
    | some c =>
      rw [clearCalculator_op s c hf2 he hfind]
      have hc_mem : c ∈ s.currentEquation := List.mem_of_find?_eq_some hfind
      have hc_op : isOpChar c = true := List.find?_some hfind
      rcases lastIdxOf_decomp c s.currentEquation hc_mem with ⟨u, v, heq, _, hidx, htake⟩
      have htake2 : s.currentEquation.take (lastIdxOf c s.currentEquation + 1) = u ++ [c] := by
        rw [hidx]
        exact htake
      have hu : SegsOK u := by
        refine segsOK_left_of_mid_sep u v c (isOpEqChar_of_isOpChar hc_op) ?_
        rw [← heq]
        exact hA
      refine ⟨?_, ?_, ?_⟩
      · show SegsOK (s.currentEquation.take (lastIdxOf c s.currentEquation + 1))
        rw [htake2]
        exact segsOK_append_sep (isOpEqChar_of_isOpChar hc_op) hu
      · intro _
        exact Or.inr (Or.inr ⟨u, c, htake2, hc_op⟩)
      · intro _
        rfl
    | none =>
      rw [clearCalculator_no_op s hf2 he hfind]
      refine ⟨segsOK_nil, ?_, ?_⟩
      · intro hff
        rw [show ({ s with currentEquation := [] } :
          CalcState).shouldResetDisplay = s.shouldResetDisplay from rfl, hf2] at hff
        exact absurd hff (by decide)
      · intro hm
        exact absurd hm (List.not_mem_nil '=')

theorem invD_step (e : Event) (he : e ≠ Event.back) (s : CalcState) (h : InvD s) :
    InvD (step e s) := by
  cases e with
  | digit d => exact invD_handleNumber d s h
  | dec => exact invD_handleDecimal s h
  | operator o => exact invD_handleOperator o s h
  | equals => exact invD_handleEquals s h
  | clear => exact invD_clearCalculator s h
  | allClear => exact invD_initState
  | back => exact absurd rfl he

theorem invD_runFrom (es : List Event) :
    ∀ (s : CalcState), InvD s → (∀ e ∈ es, e ≠ Event.back) →
      InvD (runFrom s es) := by
  induction es with
  | nil => intro s h _; exact h
  | cons e es ih =>
    intro s h hnb
    rw [runFrom, List.foldl_cons]
    exact ih (step e s) (invD_step e (hnb e (by simp)) s h)
      (fun x hx => hnb x (by simp [hx]))

theorem invD_run (es : List Event) (hnb : ∀ e ∈ es, e ≠ Event.back) :
    InvD (run es) :=
  invD_runFrom es initState invD_initState hnb

/-! ### Miscellaneous helpers for the claim theorems -/

theorem runFrom_append (s : CalcState) (es1 es2 : List Event) :
    runFrom s (es1 ++ es2) = runFrom (runFrom s es1) es2 := by
  simp [runFrom, List.foldl_append]

theorem run_append (es1 es2 : List Event) :
    run (es1 ++ es2) = runFrom (run es1) es2 :=
  runFrom_append initState es1 es2

theorem runFrom_single (s : CalcState) (e : Event) : runFrom s [e] = step e s := rfl

theorem operate_nan_left (o : Op) (x : JSNum) (h : o = Op.div → x ≠ JSNum.num 0) :
    operate o JSNum.nan x = JSVal.val JSNum.nan := by
  cases o with
  | add => cases x <;> rfl
  | sub => cases x <;> rfl
  | mul => cases x <;> rfl
  | div =>
    show divide JSNum.nan x = JSVal.val JSNum.nan
    rw [divide, if_neg (h rfl)]
    cases x <;> rfl

theorem parse_single_digit : ∀ d : Fin 10,
    parseFloatJS [digitChar (d : Nat)] = JSNum.num (d : Nat) := by
  with_unfolding_all decide

theorem parse_digit_ne_zero : ∀ d : Fin 10, d ≠ 0 →
    parseFloatJS [digitChar (d : Nat)] ≠ JSNum.num 0 := by
  with_unfolding_all decide

theorem digitChar_eq_zero_iff : ∀ d : Fin 10, digitChar (d : Nat) = '0' ↔ d = 0 := by decide

theorem charsOf_not_op (a : List (Fin 10)) : ∀ c ∈ charsOf a, ¬isOpChar c := by
  intro c hc hb
  rw [charsOf_no_op a c hc] at hb
  exact absurd hb (by decide)

theorem lastPart_charsOf (a : List (Fin 10)) :
    lastPart isOpChar (charsOf a) = charsOf a :=
  lastPart_of_forall_not _ _ (charsOf_not_op a)

theorem find?_first_op (c : Char) :
    ∀ (u v : List Char), isOpChar c = true → (∀ x ∈ u, isOpChar x = true → x = c) →
      (u ++ c :: v).find? isOpChar = some c := by
  intro u
  induction u with
  | nil =>
    intro v hc _
    rw [List.nil_append, List.find?_cons, hc]
  | cons x u ih =>
    intro v hc hu
    rw [List.cons_append, List.find?_cons]
    cases hx : isOpChar x with
    | true => rw [hu x (by simp) hx]
    | false => exact ih v hc (fun y hy => hu y (by simp [hy]))

theorem lastIdxOf_append_of_not_mem (u v : List Char) (c : Char) (hv : c ∉ v) :
    lastIdxOf c (u ++ c :: v) = u.length ∧
      (u ++ c :: v).take (u.length + 1) = u ++ [c] := by
  constructor
  · rw [lastIdxOf]
    have hrev : (u ++ c :: v).reverse = v.reverse ++ c :: u.reverse := by simp
    rw [hrev, indexOf_first c v.reverse u.reverse (by simpa using hv)]
    simp only [List.length_append, List.length_cons, List.length_reverse]
    omega
  · rw [show u ++ c :: v = (u ++ [c]) ++ v from by simp]
    rw [List.take_left' (by simp)]

theorem digitRun_no_leading_zero : ∀ (ds : List (Fin 10)) (s : CalcState),
    s.shouldResetDisplay = false → '=' ∉ s.currentEquation →
    (s.currentEquation.head? = some '0' → s.currentEquation = ['0']) →
    (runFrom s (digitEvents ds)).shouldResetDisplay = false ∧
      '=' ∉ (runFrom s (digitEvents ds)).currentEquation ∧
      ((runFrom s (digitEvents ds)).currentEquation.head? = some '0' →
        (runFrom s (digitEvents ds)).currentEquation = ['0']) := by
  intro ds
  induction ds with
  | nil => intro s h1 h2 h3; exact ⟨h1, h2, h3⟩
  | cons d ds ih =>
    intro s h1 h2 h3
    rw [digitEvents, List.map_cons, runFrom, List.foldl_cons]
    show ((runFrom (step (Event.digit d) s) (digitEvents ds)).shouldResetDisplay = false ∧ _)
    by_cases h0 : s.currentEquation = ['0']
    · rw [show step (Event.digit d) s =
        { s with currentEquation := [digitChar (d : Nat)] } from
        handleNumber_flag_false_zero _ s h1 h0 h2]
      refine ih _ h1 (by
        show '=' ∉ [digitChar (d : Nat)]
        intro hm
        simp only [List.mem_singleton] at hm
        exact digit_fin_ne_eq d hm.symm) ?_
      show [digitChar (d : Nat)].head? = some '0' → [digitChar (d : Nat)] = ['0']
      intro hh
      simp only [List.head?_cons, Option.some.injEq] at hh
      rw [hh]
    · rw [show step (Event.digit d) s =
        { s with currentEquation := s.currentEquation ++ [digitChar (d : Nat)] } from
        handleNumber_flag_false _ s h1 h0 h2]
      refine ih _ h1 (no_eq_append_digit _ d h2) ?_
      show (s.currentEquation ++ [digitChar (d : Nat)]).head? = some '0' →
        s.currentEquation ++ [digitChar (d : Nat)] = ['0']
      cases hq : s.currentEquation with
      | nil =>
        intro hh
        simp only [List.nil_append, List.head?_cons, Option.some.injEq] at hh
        rw [List.nil_append, hh]
      | cons x rest =>
        intro hh
        rw [List.cons_append, List.head?_cons, Option.some.injEq] at hh
        have hx0 : s.currentEquation = ['0'] := h3 (by rw [hq, hh]; rfl)
        exact absurd hx0 h0

theorem lastPart_single_sep (p : Char → Bool) (c : Char) (hc : p c) :
    lastPart p [c] = [] := by
  rw [lastPart]
  rw [show splitP p [c] = [[], []] from by
    rw [splitP_cons, if_pos hc]
    rfl]
  rfl

theorem operate_div_zero (a : JSNum) : operate Op.div a (JSNum.num 0) = JSVal.err := by
  show divide a (JSNum.num 0) = JSVal.err
  rw [divide, if_pos rfl]

theorem run_div_zero_equals (a : List (Fin 10)) (ha : a ≠ [])
    (h0 : 1 < a.length → a.head? ≠ some 0) :
    run (digitEvents a ++ [Event.operator Op.div, Event.digit 0, Event.equals]) =
      ⟨charsOf a ++ "÷0=Error".toList, none, none, none, true⟩ := by
  rw [run_append, run_digits_init a ha h0]
  rw [show runFrom { initState with currentEquation := charsOf a }
      [Event.operator Op.div, Event.digit 0, Event.equals]
    = runFrom (handleOperator Op.div { initState with currentEquation := charsOf a })
      [Event.digit 0, Event.equals] from rfl]
  rw [show handleOperator Op.div { initState with currentEquation := charsOf a }
      = ⟨charsOf a ++ [opChar Op.div], some (parseFloatJS (charsOf a)), none,
          some Op.div, true⟩ from by
    rw [handleOperator_case1 Op.div _ (charsOf_no_eq a) rfl]
    dsimp only
    rw [lastPart_charsOf]
    rfl]
  rw [show runFrom (⟨charsOf a ++ [opChar Op.div], some (parseFloatJS (charsOf a)), none,
        some Op.div, true⟩ : CalcState) [Event.digit 0, Event.equals]
    = runFrom (handleNumber (digitChar ((0 : Fin 10) : Nat))
        ⟨charsOf a ++ [opChar Op.div], some (parseFloatJS (charsOf a)), none,
          some Op.div, true⟩) [Event.equals] from rfl]
  rw [show handleNumber (digitChar ((0 : Fin 10) : Nat))
      (⟨charsOf a ++ [opChar Op.div], some (parseFloatJS (charsOf a)), none,
        some Op.div, true⟩ : CalcState)
    = ⟨(charsOf a ++ [opChar Op.div]) ++ charsOf [(0 : Fin 10)],
        some (parseFloatJS (charsOf a)), none, some Op.div, false⟩ from by
    rw [handleNumber_flag_true_no_eq _ _ rfl
      (no_eq_append_op (charsOf a) Op.div (charsOf_no_eq a))]
    rfl]
  rw [show runFrom (⟨(charsOf a ++ [opChar Op.div]) ++ charsOf [(0 : Fin 10)],
      some (parseFloatJS (charsOf a)), none, some Op.div, false⟩ : CalcState) [Event.equals]
    = handleEquals ⟨(charsOf a ++ [opChar Op.div]) ++ charsOf [(0 : Fin 10)],
        some (parseFloatJS (charsOf a)), none, some Op.div, false⟩ from rfl]
  rw [handleEquals_fire _ (parseFloatJS (charsOf a)) Op.div rfl rfl rfl]
  dsimp only
  rw [lastPart_append_block isOpChar _ _ (charsOf_not_op [(0 : Fin 10)])]
  rw [lastPart_append_sep isOpChar _ _ (opChar_isOp Op.div)]
  rw [show parseFloatJS ([] ++ charsOf [(0 : Fin 10)]) = JSNum.num 0 from by
    with_unfolding_all decide]
  rw [operate_div_zero]
  show CalcState.mk _ _ _ _ _ = CalcState.mk _ _ _ _ _
  simp only [List.append_assoc]
  rfl

/-- Claim C2 (counterexample): after a chained-operator division by zero the
buffer shows the error marker (`"Error+"`), yet the next digit press is
concatenated (`"Error+7"`) rather than replacing the buffer with `"7"`. -/
theorem c2_digit_after_error_counterexample :
    (run [Event.digit 5, Event.operator Op.div, Event.digit 0,
      Event.operator Op.add]).currentEquation = "Error+".toList ∧
    (run [Event.digit 5, Event.operator Op.div, Event.digit 0, Event.operator Op.add,
      Event.digit 7]).currentEquation = "Error+7".toList ∧
    "Error+7".toList ≠ ['7'] := by
  refine ⟨?_, ?_, ?_⟩
  · with_unfolding_all decide
  · with_unfolding_all decide
  · decide

/-- Claim C2 (amended): `evaluate("÷", a, 0)` is the error marker for every
JS number `a`, and when the division by zero is performed by the Equals
handler the buffer becomes `a ++ "÷0=Error"` (which contains the equals
marker) and the next digit press replaces the buffer entirely with that
digit.  (After a chained-operator division by zero the buffer is
`"Error"+op` without an equals marker and the digit is appended instead —
see the counterexample.) -/
theorem c2_division_by_zero_law :
    (∀ a : JSNum, operate Op.div a (JSNum.num 0) = JSVal.err) ∧
    ∀ (a : List (Fin 10)) (d : Fin 10), a ≠ [] → (1 < a.length → a.head? ≠ some 0) →
      (run (digitEvents a ++ [Event.operator Op.div, Event.digit 0,
        Event.equals])).currentEquation = charsOf a ++ "÷0=Error".toList ∧
      (handleNumber (digitChar (d : Nat))
        (run (digitEvents a ++ [Event.operator Op.div, Event.digit 0,
          Event.equals]))).currentEquation = [digitChar (d : Nat)] := by
  refine ⟨operate_div_zero, ?_⟩
  intro a d ha h0
  rw [run_div_zero_equals a ha h0]
  refine ⟨rfl, ?_⟩
  refine handleNumber_eq_marker _ _ ?_
  show '=' ∈ charsOf a ++ "÷0=Error".toList
  exact List.mem_append.mpr (Or.inr (by decide))

/-- Claim C2 witness at `a = "10"`, `d = 7`. -/
theorem c2_division_by_zero_law_witness :
    operate Op.div JSNum.nan (JSNum.num 0) = JSVal.err ∧
    (run (digitEvents [1, 0] ++ [Event.operator Op.div, Event.digit 0,
      Event.equals])).currentEquation = charsOf [1, 0] ++ "÷0=Error".toList ∧
    (handleNumber (digitChar ((7 : Fin 10) : Nat))
      (run (digitEvents [1, 0] ++ [Event.operator Op.div, Event.digit 0,
        Event.equals]))).currentEquation = [digitChar ((7 : Fin 10) : Nat)] :=
  ⟨c2_division_by_zero_law.1 JSNum.nan,
   (c2_division_by_zero_law.2 [1, 0] 7 (by decide) (by decide)).1,
   (c2_division_by_zero_law.2 [1, 0] 7 (by decide) (by decide)).2⟩

/-- Claim C6: the Equals event mutates nothing unless `firstNumber` is
non-null, a pending operator exists, and the reset flag is false; and a
second equals immediately after a successful one is a no-op (the success
nulls the pending operator and sets the flag, so the guard fails). -/
theorem c6_equals_guard_and_idempotence :
    (∀ s : CalcState,
      s.firstNumber = none ∨ s.currentOperator = none ∨ s.shouldResetDisplay = true →
      handleEquals s = s) ∧
    ∀ s : CalcState, s.firstNumber.isSome = true → s.currentOperator.isSome = true →
      s.shouldResetDisplay = false → handleEquals (handleEquals s) = handleEquals s := by
  refine ⟨handleEquals_noop, ?_⟩
  intro s h1 h2 h3
  obtain ⟨fn, hfn⟩ := Option.isSome_iff_exists.mp h1
  obtain ⟨o2, ho2⟩ := Option.isSome_iff_exists.mp h2
  rw [handleEquals_fire s fn o2 hfn ho2 h3]
  exact handleEquals_noop _ (Or.inr (Or.inl rfl))

/-- Claim C6 witness: equals on the initial state is a no-op, and after
`5`, `+`, `3` a first equals succeeds and a second one changes nothing. -/
theorem c6_equals_guard_and_idempotence_witness :
    handleEquals initState = initState ∧
    handleEquals (handleEquals (run [Event.digit 5, Event.operator Op.add, Event.digit 3]))
      = handleEquals (run [Event.digit 5, Event.operator Op.add, Event.digit 3]) :=
  ⟨c6_equals_guard_and_idempotence.1 initState (Or.inl rfl),
   c6_equals_guard_and_idempotence.2 _ (by with_unfolding_all decide)
     (by with_unfolding_all decide) (by with_unfolding_all decide)⟩

/-- Claim C9: in every reachable state the buffer contains at most one
equals marker, and once a marker is present the next digit press starts a
fresh buffer consisting of just that digit. -/
theorem c9_single_equals_marker :
    (∀ s : CalcState, Reachable s → s.currentEquation.count '=' ≤ 1) ∧
    ∀ (s : CalcState) (d : Fin 10), '=' ∈ s.currentEquation →
      (handleNumber (digitChar (d : Nat)) s).currentEquation = [digitChar (d : Nat)] := by
  constructor
  · intro s hs
    exact (reachable_invE s hs).1
  · intro s d hm
    exact handleNumber_eq_marker _ s hm

/-- Claim C9 witness at the reachable state `"5+3=8"`. -/
theorem c9_single_equals_marker_witness :
    (run [Event.digit 5, Event.operator Op.add, Event.digit 3,
      Event.equals]).currentEquation.count '=' ≤ 1 ∧
    (handleNumber (digitChar ((7 : Fin 10) : Nat))
      (run [Event.digit 5, Event.operator Op.add, Event.digit 3,
        Event.equals])).currentEquation = [digitChar ((7 : Fin 10) : Nat)] :=
  ⟨c9_single_equals_marker.1 _ (reachable_run _),
   c9_single_equals_marker.2 _ 7 (by with_unfolding_all decide)⟩

/-- Claim C7: Backspace on a buffer with an equals marker collapses it to
exactly the segment after the marker; otherwise it removes the last
character (an emptied buffer becomes `"0"`); from any buffer,
`length + 1` backspaces reach exactly `"0"` and every further backspace
stays at `"0"`; and from a reachable state no backspace ever produces an
empty buffer. -/
theorem c7_backspace_behaviour :
    (∀ s : CalcState, handleBackspace s =
      { s with currentEquation := backspaceEq s.currentEquation }) ∧
    (∀ u w : List Char, '=' ∉ u → '=' ∉ w → backspaceEq (u ++ '=' :: w) = w) ∧
    (∀ l : List Char, backspaceEq^[l.length + 1] l = ['0']) ∧
    backspaceEq ['0'] = ['0'] ∧
    ∀ s : CalcState, Reachable s → ∀ n : Nat,
      backspaceEq^[n + 1] s.currentEquation ≠ [] := by
  refine ⟨handleBackspace_state, backspaceEq_collapse, ?_, backspaceEq_zero,
    reachable_backspace_iterate_ne_nil⟩
  intro l
  exact backspaceEq_reaches_zero l.length l (Nat.le_refl _)

/-- Claim C7 witness: collapse of `"5+3=8"` to `"8"`, termination from
`"41+8=49"`, and never-empty from the reachable state `"5+3=8"`. -/
theorem c7_backspace_behaviour_witness :
    backspaceEq ("5+3".toList ++ '=' :: "8".toList) = "8".toList ∧
    backspaceEq^["41+8=49".toList.length + 1] "41+8=49".toList = ['0'] ∧
    backspaceEq^[0 + 1] (run [Event.digit 5, Event.operator Op.add, Event.digit 3,
      Event.equals]).currentEquation ≠ [] :=
  ⟨c7_backspace_behaviour.2.1 ("5+3".toList) ("8".toList) (by decide) (by decide),
   c7_backspace_behaviour.2.2.1 ("41+8=49".toList),
   c7_backspace_behaviour.2.2.2.2 _ (reachable_run _) 0⟩

/-- Claim C10 (counterexample): from the initial state, `÷`, `0`, `=`
yields the buffer `"÷0=Error"` — the error marker, not `"=NaN"` — because
the parsed zero second operand takes the division-by-zero branch even
though the first operand is NaN. -/
theorem c10_operator_counterexample :
    (run [Event.operator Op.div, Event.digit 0, Event.equals]).currentEquation
      = "÷0=Error".toList ∧
    "÷0=Error".toList ≠ "÷0=NaN".toList := by
  refine ⟨?_, ?_⟩
  · with_unfolding_all decide
  · decide

/-- Claim C10 (amended): the Operator event enforces no precondition —
on the initial state it parses the empty segment to NaN, stores NaN as
the first operand, and makes the buffer exactly the operator symbol; a
subsequent digit and equals append `"=NaN"` — except when the operator is
`÷` and the entered digit is `0`, in which case the division-by-zero
branch still yields `"=Error"`. -/
theorem c10_operator_no_precondition :
    ∀ op : Op,
      handleOperator op initState =
        ⟨[opChar op], some JSNum.nan, none, some op, true⟩ ∧
      ∀ d : Fin 10, (op = Op.div → d ≠ 0) →
        (handleEquals (handleNumber (digitChar (d : Nat))
          (handleOperator op initState))).currentEquation
          = opChar op :: digitChar (d : Nat) :: '=' :: ['N', 'a', 'N'] := by
  intro op
  have hop : handleOperator op initState =
      ⟨[opChar op], some JSNum.nan, none, some op, true⟩ := by
    rw [handleOperator_case1 op initState (by
      show '=' ∉ ([] : List Char)
      simp) rfl]
    rw [show lastPart isOpChar initState.currentEquation = [] from by
      with_unfolding_all decide]
    rw [show parseFloatJS [] = JSNum.nan from by with_unfolding_all decide]
    rfl
  refine ⟨hop, ?_⟩
  intro d hd
  rw [hop]
  rw [show handleNumber (digitChar (d : Nat))
      (⟨[opChar op], some JSNum.nan, none, some op, true⟩ : CalcState)
    = ⟨[opChar op] ++ [digitChar (d : Nat)], some JSNum.nan, none, some op, false⟩ from by
    rw [handleNumber_flag_true_no_eq _ _ rfl (by
      show '=' ∉ [opChar op]
      intro hm
      simp only [List.mem_singleton] at hm
      exact opChar_ne_eq op hm.symm)]]
  rw [handleEquals_fire _ JSNum.nan op rfl rfl rfl]
  dsimp only
  rw [lastPart_append_block isOpChar [opChar op] [digitChar (d : Nat)] (by
    intro c hc hb
    simp only [List.mem_singleton] at hc
    subst hc
    rw [isOpChar_of_isOpEqChar_false (digit_fin_opEq d)] at hb
    exact absurd hb (by decide))]
  rw [lastPart_single_sep isOpChar (opChar op) (opChar_isOp op)]
  rw [List.nil_append, parse_single_digit d]
  rw [operate_nan_left op (JSNum.num (d : Nat)) (by
    intro hdiv
    have hd0 : d ≠ 0 := hd hdiv
    have := parse_digit_ne_zero d hd0
    rw [parse_single_digit d] at this
    exact this)]
  rfl

/-- Claim C10 witness at `op = +`, `d = 5`: the buffer ends `"+5=NaN"`. -/
theorem c10_operator_no_precondition_witness :
    handleOperator Op.add initState = ⟨[opChar Op.add], some JSNum.nan, none, some Op.add, true⟩ ∧
    (handleEquals (handleNumber (digitChar ((5 : Fin 10) : Nat))
      (handleOperator Op.add initState))).currentEquation
      = opChar Op.add :: digitChar ((5 : Fin 10) : Nat) :: '=' :: ['N', 'a', 'N'] :=
  ⟨(c10_operator_no_precondition Op.add).1,
   (c10_operator_no_precondition Op.add).2 5 (by decide)⟩

/-- Claim C4 (counterexample): after `5`, `÷`, `0`, `+` the buffer is
`"Error+"` and the first operand is NaN (the parse of the marker); a
further `3`, `=` produces `"Error+3=NaN"` — NaN, not the error marker. -/
theorem c4_malformed_parse_counterexample :
    (run [Event.digit 5, Event.operator Op.div, Event.digit 0, Event.operator Op.add,
      Event.digit 3]).firstNumber = some JSNum.nan ∧
    (run [Event.digit 5, Event.operator Op.div, Event.digit 0, Event.operator Op.add,
      Event.digit 3, Event.equals]).currentEquation = "Error+3=NaN".toList ∧
    "Error+3=NaN".toList ≠ "Error+3=Error".toList := by
  refine ⟨?_, ?_, ?_⟩
  · with_unfolding_all decide
  · with_unfolding_all decide
  · decide

/-- Claim C4 (amended): when the first operand is NaN (as produced by
parsing the error marker left in the buffer by a chained division by
zero), Equals evaluates to NaN — appended as `"=NaN"`, not the error
marker — unless the operator is `÷` and the second segment parses to `0`
(then the division-by-zero branch yields the marker).  The reset flag is
set and the buffer contains `"="`, so a subsequent digit press replaces
the buffer entirely. -/
theorem c4_malformed_parse_propagation :
    ∀ (s : CalcState) (o : Op),
      s.firstNumber = some JSNum.nan → s.currentOperator = some o →
      s.shouldResetDisplay = false →
      (o = Op.div → parseFloatJS (lastPart isOpChar s.currentEquation) ≠ JSNum.num 0) →
      handleEquals s =
        { currentEquation := s.currentEquation ++ '=' :: ['N', 'a', 'N']
          firstNumber := none
          secondNumber := none
          currentOperator := none
          shouldResetDisplay := true } ∧
      ∀ d : Fin 10, (handleNumber (digitChar (d : Nat)) (handleEquals s)).currentEquation
        = [digitChar (d : Nat)] := by
  intro s o h1 h2 h3 hnd
  have hfire : handleEquals s =
      { currentEquation := s.currentEquation ++ '=' :: ['N', 'a', 'N']
        firstNumber := none
        secondNumber := none
        currentOperator := none
        shouldResetDisplay := true } := by
    rw [handleEquals_fire s JSNum.nan o h1 h2 h3]
    rw [operate_nan_left o _ hnd]
    rfl
  refine ⟨hfire, ?_⟩
  intro d
  rw [hfire]
  refine handleNumber_eq_marker _ _ ?_
  show '=' ∈ s.currentEquation ++ '=' :: ['N', 'a', 'N']
  simp

/-- Claim C4 witness at the reachable state after `5`, `÷`, `0`, `+`, `3`. -/
theorem c4_malformed_parse_propagation_witness :
    handleEquals (run [Event.digit 5, Event.operator Op.div, Event.digit 0,
      Event.operator Op.add, Event.digit 3]) =
      { currentEquation := (run [Event.digit 5, Event.operator Op.div, Event.digit 0,
          Event.operator Op.add, Event.digit 3]).currentEquation ++ '=' :: ['N', 'a', 'N']
        firstNumber := none
        secondNumber := none
        currentOperator := none
        shouldResetDisplay := true } ∧
    (handleNumber (digitChar ((7 : Fin 10) : Nat))
      (handleEquals (run [Event.digit 5, Event.operator Op.div, Event.digit 0,
        Event.operator Op.add, Event.digit 3]))).currentEquation
      = [digitChar ((7 : Fin 10) : Nat)] :=
  ⟨(c4_malformed_parse_propagation _ Op.add (by with_unfolding_all decide)
      (by with_unfolding_all decide) (by with_unfolding_all decide)
      (by intro h; exact absurd h (by decide))).1,
   (c4_malformed_parse_propagation _ Op.add (by with_unfolding_all decide)
      (by with_unfolding_all decide) (by with_unfolding_all decide)
      (by intro h; exact absurd h (by decide))).2 7⟩

theorem runFrom_cons (s : CalcState) (e : Event) (es : List Event) :
    runFrom s (e :: es) = runFrom (step e s) es := rfl

theorem step_operator (o : Op) (s : CalcState) :
    step (Event.operator o) s = handleOperator o s := rfl

theorem step_equals_eq (s : CalcState) : step Event.equals s = handleEquals s := rfl

/-- Claim C1 (counterexample): the chained-operator handler replaces the
whole buffer with `result + op`, so `12, +, 7, -, 1, =` shows the
intermediate `"19-"` but terminates at `"19-1=18"`, not at the claimed
`"12+7-1=18"`. -/
theorem c1_chained_counterexample :
    (run [Event.digit 1, Event.digit 2, Event.operator Op.add, Event.digit 7,
      Event.operator Op.sub]).currentEquation = "19-".toList ∧
    (run [Event.digit 1, Event.digit 2, Event.operator Op.add, Event.digit 7,
      Event.operator Op.sub, Event.digit 1, Event.equals]).currentEquation
      = "19-1=18".toList ∧
    "19-1=18".toList ≠ "12+7-1=18".toList := by
  refine ⟨?_, ?_, ?_⟩
  · with_unfolding_all decide
  · with_unfolding_all decide
  · decide

/-- Claim C1 (amended): for digit-entered operands `a`, `b`, `c`, when the
intermediate evaluation succeeds with a numeric value `v` whose string
round-trips through `parseFloat`, the buffer immediately after the second
operator is exactly `String(v) + op2` (the intermediate display), and the
final buffer after `c` and equals is
`String(v) + op2 + c + "=" + String(evaluate(op2, v, c))` — the machine
thus computes `evaluate(op2, evaluate(op1, a, b), c)`, but the original
operands `a, op1, b` are no longer in the buffer. -/
theorem c1_chained_operation_law :
    ∀ (a b c : List (Fin 10)) (op1 op2 : Op) (v : JSNum),
      a ≠ [] → b ≠ [] → c ≠ [] → (1 < a.length → a.head? ≠ some 0) →
      operate op1 (parseFloatJS (charsOf a)) (parseFloatJS (charsOf b)) = JSVal.val v →
      parseFloatJS (jsNumToChars v) = v →
      (run (digitEvents a ++ [Event.operator op1] ++ digitEvents b
        ++ [Event.operator op2])).currentEquation = jsNumToChars v ++ [opChar op2] ∧
      (run (digitEvents a ++ [Event.operator op1] ++ digitEvents b ++ [Event.operator op2]
        ++ digitEvents c ++ [Event.equals])).currentEquation
        = ((jsNumToChars v ++ [opChar op2]) ++ charsOf c) ++ '=' ::
            jsValToChars (operate op2 v (parseFloatJS (charsOf c))) := by
  intro a b c op1 op2 v ha hb hc h0 hv hrt
  have h1 : runFrom { initState with currentEquation := charsOf a }
      [Event.operator op1] =
      ⟨charsOf a ++ [opChar op1], some (parseFloatJS (charsOf a)), none,
        some op1, true⟩ := by
    rw [runFrom_single, step_operator]
    rw [handleOperator_case1 op1 _ (charsOf_no_eq a) rfl]
    dsimp only
    rw [lastPart_charsOf]
    rfl
  have h2 : runFrom (⟨charsOf a ++ [opChar op1], some (parseFloatJS (charsOf a)), none,
      some op1, true⟩ : CalcState) (digitEvents b) =
      ⟨(charsOf a ++ [opChar op1]) ++ charsOf b, some (parseFloatJS (charsOf a)), none,
        some op1, false⟩ := by
    rw [runFrom_digits_true b _ hb rfl (no_eq_append_op _ op1 (charsOf_no_eq a))
      (by simp)]
  have h3 : handleOperator op2
      (⟨(charsOf a ++ [opChar op1]) ++ charsOf b, some (parseFloatJS (charsOf a)), none,
        some op1, false⟩ : CalcState) =
      ⟨jsNumToChars v ++ [opChar op2], some v, some (parseFloatJS (charsOf b)),
        some op2, true⟩ := by
    rw [handleOperator_case2 op2 _ (parseFloatJS (charsOf a)) op1 (by
      intro hm
      rcases List.mem_append.mp hm with h | h
      · exact no_eq_append_op _ op1 (charsOf_no_eq a) h
      · exact charsOf_no_eq b h) rfl rfl rfl]
    dsimp only
    rw [lastPart_append_block isOpChar _ (charsOf b) (charsOf_not_op b)]
    rw [lastPart_append_sep isOpChar _ _ (opChar_isOp op1)]
    rw [List.nil_append, hv]
    rw [show parseFloatVal (JSVal.val v) = parseFloatJS (jsNumToChars v) from rfl, hrt]
    rfl
  have hrun4 : run (digitEvents a ++ [Event.operator op1] ++ digitEvents b
      ++ [Event.operator op2]) =
      ⟨jsNumToChars v ++ [opChar op2], some v, some (parseFloatJS (charsOf b)),
        some op2, true⟩ := by
    rw [run_append, run_append, run_append, run_digits_init a ha h0, h1, h2]
    rw [runFrom_single, step_operator, h3]
  refine ⟨by rw [hrun4], ?_⟩
  rw [run_append, run_append, hrun4]
  rw [runFrom_digits_true c _ hc rfl (no_eq_append_op _ op2 (jsNumToChars_no_eq v))
    (by simp)]
  dsimp only
  rw [runFrom_single, step_equals_eq]
  rw [handleEquals_fire _ v op2 rfl rfl rfl]
  dsimp only
  rw [lastPart_append_block isOpChar _ (charsOf c) (charsOf_not_op c)]
  rw [lastPart_append_sep isOpChar _ _ (opChar_isOp op2)]
  rw [List.nil_append]

/-- Claim C1 witness at `12, +, 7, -, 1, =` with intermediate value 19. -/
theorem c1_chained_operation_law_witness :
    (run (digitEvents [1, 2] ++ [Event.operator Op.add] ++ digitEvents [7]
      ++ [Event.operator Op.sub])).currentEquation
      = jsNumToChars (JSNum.num 19) ++ [opChar Op.sub] ∧
    (run (digitEvents [1, 2] ++ [Event.operator Op.add] ++ digitEvents [7]
      ++ [Event.operator Op.sub] ++ digitEvents [1] ++ [Event.equals])).currentEquation
      = ((jsNumToChars (JSNum.num 19) ++ [opChar Op.sub]) ++ charsOf [1]) ++ '=' ::
          jsValToChars (operate Op.sub (JSNum.num 19) (parseFloatJS (charsOf [1]))) :=
  c1_chained_operation_law [1, 2] [7] [1] Op.add Op.sub (JSNum.num 19)
    (by decide) (by decide) (by decide) (by decide)
    (by with_unfolding_all decide) (by with_unfolding_all decide)

/-- Claim C3 (counterexample): in the reachable state with buffer `"5+0"`
the active operand segment is exactly `"0"`, yet pressing `5` appends,
producing the segment `"05"` — the whole-buffer check
`currentEquation === "0"` does not apply per segment. -/
theorem c3_leading_zero_counterexample :
    (run [Event.digit 5, Event.operator Op.add, Event.digit 0]).currentEquation
      = "5+0".toList ∧
    lastPart isOpChar ("5+0".toList) = ['0'] ∧
    (run [Event.digit 5, Event.operator Op.add, Event.digit 0,
      Event.digit 5]).currentEquation = "5+05".toList ∧
    "5+05".toList ≠ "5+5".toList := by
  refine ⟨?_, ?_, ?_, ?_⟩
  · with_unfolding_all decide
  · decide
  · with_unfolding_all decide
  · decide

/-- Claim C3 (amended): the Digit event replaces rather than appends only
when the entire buffer is exactly `"0"` (and the reset flag is clear);
consequently leading-zero suppression holds for the first operand — for
every digit-only run from the initial state the buffer never shows a
leading zero followed by another digit — but not for later operand
segments. -/
theorem c3_leading_zero_suppression :
    (∀ (s : CalcState) (d : Fin 10), s.shouldResetDisplay = false →
      s.currentEquation = ['0'] →
      (handleNumber (digitChar (d : Nat)) s).currentEquation = [digitChar (d : Nat)]) ∧
    ∀ ds : List (Fin 10), (run (digitEvents ds)).currentEquation.head? = some '0' →
      (run (digitEvents ds)).currentEquation = ['0'] := by
  constructor
  · intro s d hf h0
    rw [handleNumber_flag_false_zero _ s hf h0 (by rw [h0]; decide)]
  · intro ds
    exact (digitRun_no_leading_zero ds initState rfl
      (by show '=' ∉ ([] : List Char); simp)
      (by intro h; exact absurd h (by decide))).2.2

/-- Claim C3 witness: replacement on the buffer `"0"`, and the digit-only
run `0` keeps the buffer at `"0"`. -/
theorem c3_leading_zero_suppression_witness :
    (handleNumber (digitChar ((5 : Fin 10) : Nat)) (run [Event.digit 0])).currentEquation
      = [digitChar ((5 : Fin 10) : Nat)] ∧
    (run (digitEvents [0])).currentEquation = ['0'] :=
  ⟨c3_leading_zero_suppression.1 (run [Event.digit 0]) 5
      (by with_unfolding_all decide) (by with_unfolding_all decide),
   c3_leading_zero_suppression.2 [0] (by with_unfolding_all decide)⟩

/-- Claim C5 (counterexample): `3, -, 7, +, 3` reaches the buffer
`"-4+3"` with the reset flag clear; Clear truncates at the last occurrence
of the *first* operator character — the leading minus sign — leaving
`"-"`, not the claimed `"-4+"`. -/
theorem c5_clear_counterexample :
    (run [Event.digit 3, Event.operator Op.sub, Event.digit 7, Event.operator Op.add,
      Event.digit 3]).currentEquation = "-4+3".toList ∧
    (run [Event.digit 3, Event.operator Op.sub, Event.digit 7, Event.operator Op.add,
      Event.digit 3]).shouldResetDisplay = false ∧
    (run [Event.digit 3, Event.operator Op.sub, Event.digit 7, Event.operator Op.add,
      Event.digit 3, Event.clear]).currentEquation = ['-'] ∧
    (['-'] : List Char) ≠ "-4+".toList := by
  refine ⟨?_, ?_, ?_, ?_⟩
  · with_unfolding_all decide
  · with_unfolding_all decide
  · with_unfolding_all decide
  · decide

/-- Claim C5 (amended): with the reset flag clear and no equals marker,
Clear truncates the buffer to (and including) the last occurrence of the
first operator character and sets the reset flag; when every operator
character of the buffer equals the first one this is the last operator as
claimed, but a buffer such as `"-4+3"` truncates to `"-"`.  With no
operator character at all, Clear empties the buffer. -/
theorem c5_clear_truncation :
    (∀ (s : CalcState) (u v : List Char) (c : Char),
      s.shouldResetDisplay = false → '=' ∉ s.currentEquation →
      s.currentEquation = u ++ c :: v → isOpChar c = true →
      (∀ x ∈ v, isOpChar x = false) → (∀ x ∈ u, isOpChar x = true → x = c) →
      clearCalculator s =
        { s with currentEquation := u ++ [c], shouldResetDisplay := true }) ∧
    ∀ s : CalcState, s.shouldResetDisplay = false → '=' ∉ s.currentEquation →
      (∀ x ∈ s.currentEquation, isOpChar x = false) →
      clearCalculator s = { s with currentEquation := [] } := by
  constructor
  · intro s u v c hf he heq hcop hv hu
    have hfind : s.currentEquation.find? isOpChar = some c := by
      rw [heq]
      exact find?_first_op c u v hcop hu
    rw [clearCalculator_op s c hf he hfind]
    have hcv : c ∉ v := by
      intro hm
      rw [hv c hm] at hcop
      exact absurd hcop (by decide)
    obtain ⟨hidx, htake⟩ := lastIdxOf_append_of_not_mem u v c hcv
    rw [show s.currentEquation.take (lastIdxOf c s.currentEquation + 1) = u ++ [c] from by
      rw [heq, hidx]
      exact htake]
  · intro s hf he hall
    have hfind : s.currentEquation.find? isOpChar = none :=
      List.find?_eq_none.mpr (fun x hx => by rw [hall x hx]; decide)
    exact clearCalculator_no_op s hf he hfind

/-- Claim C5 witness: clearing `"5+3"` yields `"5+"`; clearing `"5"`
empties the buffer. -/
theorem c5_clear_truncation_witness :
    clearCalculator (run [Event.digit 5, Event.operator Op.add, Event.digit 3]) =
      { run [Event.digit 5, Event.operator Op.add, Event.digit 3] with
        currentEquation := ['5'] ++ ['+'], shouldResetDisplay := true } ∧
    clearCalculator (run [Event.digit 5]) =
      { run [Event.digit 5] with currentEquation := [] } :=
  ⟨c5_clear_truncation.1 _ ['5'] ['3'] '+' (by with_unfolding_all decide)
      (by with_unfolding_all decide) (by with_unfolding_all decide)
      (by decide) (by decide) (by decide),
   c5_clear_truncation.2 _ (by with_unfolding_all decide)
      (by with_unfolding_all decide) (by with_unfolding_all decide)⟩

/-- Claim C8 (counterexample): `5, ., 2, +` sets the reset flag and
Backspace then removes the trailing operator while leaving the flag set;
the active segment `"5.2"` already contains a dot, yet the next Decimal
event appends `"0."`, producing the segment `"5.20."` with two dots. -/
theorem c8_decimal_counterexample :
    (run [Event.digit 5, Event.dec, Event.digit 2, Event.operator Op.add,
      Event.back]).currentEquation = "5.2".toList ∧
    (run [Event.digit 5, Event.dec, Event.digit 2, Event.operator Op.add,
      Event.back]).shouldResetDisplay = true ∧
    '.' ∈ lastPart isOpEqChar ("5.2".toList) ∧
    (run [Event.digit 5, Event.dec, Event.digit 2, Event.operator Op.add, Event.back,
      Event.dec]).currentEquation = "5.20.".toList ∧
    ¬∀ seg ∈ splitP isOpEqChar ("5.20.".toList), seg.count '.' ≤ 1 := by
  refine ⟨?_, ?_, ?_, ?_, ?_⟩
  · with_unfolding_all decide
  · with_unfolding_all decide
  · decide
  · with_unfolding_all decide
  · decide

/-- Claim C8 (amended): along every event sequence that never presses
Backspace, every operand segment of the buffer contains at most one dot;
and a Decimal event whose active segment already contains a dot is
silently ignored whenever the reset flag is clear.  (With the flag set —
reachable with a dotted active segment only through Backspace — Decimal
unconditionally appends `"0."`, which is what the counterexample
exploits.) -/
theorem c8_single_decimal_invariant :
    (∀ es : List Event, (∀ e ∈ es, e ≠ Event.back) →
      ∀ seg ∈ splitP isOpEqChar (run es).currentEquation, seg.count '.' ≤ 1) ∧
    ∀ s : CalcState, s.shouldResetDisplay = false →
      '.' ∈ lastPart isOpEqChar s.currentEquation → handleDecimal s = s := by
  constructor
  · intro es hnb
    exact (invD_run es hnb).1
  · exact handleDecimal_flag_false_dot

/-- Claim C8 witness: a Backspace-free run with two Decimal presses keeps
one dot per segment, and Decimal on the buffer `"1."` is a no-op. -/
theorem c8_single_decimal_invariant_witness :
    (∀ seg ∈ splitP isOpEqChar (run [Event.digit 1, Event.dec, Event.digit 5,
      Event.operator Op.add, Event.digit 2, Event.dec, Event.dec]).currentEquation,
      seg.count '.' ≤ 1) ∧
    handleDecimal (run [Event.digit 1, Event.dec]) = run [Event.digit 1, Event.dec] :=
  ⟨c8_single_decimal_invariant.1 _ (by decide),
   c8_single_decimal_invariant.2 _ (by with_unfolding_all decide)
     (by with_unfolding_all decide)⟩

end OdinCalc
